import Mathlib

/-!
# Verification of the ReactionCompleter repository

A shallow embedding, in Lean 4, of the ReactionCompleter package
(`reaction_completer/material.py`, `completer.py`, `formatting.py`,
`driver.py`).  Symbolic sympy amounts are modelled exactly: concrete
numeric amounts as rationals (`ℚ`), and, where claims quantify over
arbitrary assignments of free symbols, generically over a commutative
ring of "amount expressions" together with an evaluation ring
homomorphism into `ℚ`.

The two modules of the repository that are not part of the source tree
here (`periodic_table.py` and `errors.py`) are modelled from the spec;
every such definition carries a doc comment starting with
`Modelled from the spec:`.
-/

set_option maxRecDepth 4000
set_option synthInstance.maxSize 512

namespace ReactionCompleter

/-! ## Python dictionary primitives

Python `dict`s with string keys are modelled as association lists
`List (String × α)` whose keys are unique.  `dictInsert` is Python's
`d[k] = v` (overwrite if present, append otherwise), `dictUpdate` is
`d.update(other)`, `lookupD` is `d.get(k, default)`, and `dictKeys`
is `set(d.keys())`. -/

def dictKeys {α : Type} (d : List (String × α)) : List String :=
  d.map Prod.fst

def lookupD {α : Type} (d : List (String × α)) (k : String) (dflt : α) : α :=
  match d.find? (fun p => p.1 = k) with
  | some p => p.2
  | none => dflt

def dictInsert {α : Type} (d : List (String × α)) (k : String) (v : α) :
    List (String × α) :=
  if (d.map Prod.fst).contains k then
    d.map (fun p => if p.1 = k then (k, v) else p)
  else
    d ++ [(k, v)]

def dictUpdate {α : Type} (d other : List (String × α)) : List (String × α) :=
  other.foldl (fun acc p => dictInsert acc p.1 p.2) d

/-- Python `set(d1.keys()) == set(d2.keys())` for two dicts. -/
def keysSetEq {α β : Type} (d1 : List (String × α)) (d2 : List (String × β)) : Bool :=
  (d1.map Prod.fst).all (fun k => (d2.map Prod.fst).contains k) &&
    (d2.map Prod.fst).all (fun k => (d1.map Prod.fst).contains k)

/-- Python dict equality `d1 == d2`: same key sets and equal values at
every key. -/
def dictEq {α : Type} [DecidableEq α] (d1 d2 : List (String × α)) : Bool :=
  keysSetEq d1 d2 && d1.all (fun p => lookupD d2 p.1 p.2 = p.2) &&
    d2.all (fun p => lookupD d1 p.1 p.2 = p.2)

/-- Set-subset on key lists: Python `len(s1 - s2) == 0`. -/
def subsetB (s1 s2 : List String) : Bool :=
  s1.all (fun k => s2.contains k)

/-- Stable insertion into a sorted list, used to model Python `sorted`. -/
def insertSorted {α : Type} (le : α → α → Bool) (x : α) : List α → List α
  | [] => [x]
  | y :: ys => if le x y then x :: y :: ys else y :: insertSorted le x ys

/-- Stable sort (models Python `sorted(...)`). -/
def sortBy {α : Type} (le : α → α → Bool) (l : List α) : List α :=
  l.foldr (insertSorted le) []

/-- Boolean `≤` on strings (Python string comparison). -/
def strLe (s1 s2 : String) : Bool :=
  !(decide (s2 < s1))

/-- Python `sorted` on a list of strings. -/
def sortedStrings (l : List String) : List String :=
  sortBy strLe l

/-! ## Numeric printing (`formatting.py`)

`nicely_print_float(str(expr.round(3)))`: a float is rounded to three
decimal places, trailing zeros of the fraction are stripped, and a
trailing `.` is dropped.  The binary-float representation itself is
not modelled; the value of the sympy `Float` is modelled as an exact
rational. -/

/-- Rounding to the nearest integer, as an explicit floor formula. -/
def roundHalfUp (q : ℚ) : ℤ :=
  Int.floor (q + 1 / 2)

/-- Digits of the 3-decimal fraction part, with trailing zeros stripped
(`fraction.rstrip('0')` in `nicely_print_float`). -/
def fracDigits (n : ℕ) : String :=
  let s := (Nat.toDigits 10 (n % 1000)).asString
  let padded := String.mk (List.replicate (3 - s.length) '0') ++ s
  String.mk (padded.toList.reverse.dropWhile (fun c => c = '0')).reverse

/-- Print a float value the way `simplify_print` prints a `sympy.Float`:
round to 3 decimal places, strip trailing zeros. -/
def printFloatQ (q : ℚ) : String :=
  let n : ℤ := roundHalfUp (q * 1000)
  let m : ℕ := n.natAbs
  let sign := if n < 0 then "-" else ""
  let intPart := (Nat.toDigits 10 (m / 1000)).asString
  let frac := fracDigits m
  sign ++ intPart ++ (if frac.isEmpty then "" else "." ++ frac)

/-! ## Periodic-table tables (`periodic_table.py`) -/

/-- Modelled from the spec: `periodic_table.py` is not under `src/`.
"**Element** — a string drawn from a fixed finite set `ELEMENTS` (the
periodic table)."  A representative finite table containing every
element used by the development. -/
def ELEMENTS : List String :=
  ["H", "He", "Li", "Be", "B", "C", "N", "O", "F", "Ne",
   "Na", "Mg", "Al", "Si", "P", "S", "Cl", "Ar", "K", "Ca",
   "Ti", "Mn", "Fe", "Co", "Ni", "Cu", "Zn", "Sr", "Zr", "Ba", "Sm"]

/-- Modelled from the spec: `periodic_table.py` is not under `src/`.
"A subset `NON_VOLATILE_ELEMENTS` excludes H, C, N, O and the noble
gases plus a few others"; the `e-` charge pseudo-element is treated as
volatile. -/
def NON_VOLATILE_ELEMENTS : List String :=
  ELEMENTS.filter (fun e => !(["H", "C", "N", "O", "He", "Ne", "Ar", "F", "Cl", "S"].contains e))

/-! ## Error taxonomy (`errors.py`) -/

/-- Modelled from the spec: `errors.py` is not under `src/`.  §7 lists
the error kinds; `keyError`, `typeError` and `valueError` stand for the
Python builtin exceptions that the driver's `except Exception` also
catches. -/
inductive PyErr
  | formulaError
  | stupidRecipe
  | tooFewPrecursors
  | tooManyPrecursors
  | expressionPrintError
  | keyError
  | typeError
  | valueError
deriving DecidableEq, Repr

/-! ## `material.py`: `MaterialInformation`

A composition component is a pair (molar fraction, element map).  At
this layer all amounts are the numeric (`float(...)` / parsed) values
of the stored strings, modelled exactly as rationals; a component
whose values do not convert to floats never matches any signature in
`_compare_composition` (the `ValueError → False` branch), so the
numeric model covers every material that has a functional group. -/

structure Component where
  amount : ℚ
  elements : List (String × ℚ)
deriving DecidableEq, Repr

structure MaterialComp where
  material_string : String
  material_formula : String
  composition : List Component
  substitution_dict : List (String × String)
deriving DecidableEq, Repr

/-- `MaterialInformation._compare_composition`: same key sets, at least
one key, and all pairwise ratios `comp1[k]/comp2[k]` form a single
value.  (The fixed signatures it is called with have nonzero entries,
so Python's `ZeroDivisionError` is unreachable there.) -/
def compare_composition (comp1 comp2 : List (String × ℚ)) : Bool :=
  if !(keysSetEq comp1 comp2) || comp1.length = 0 then false
  else
    match comp1.map (fun p => p.2 / lookupD comp2 p.1 0) with
    | [] => false
    | r :: rs => rs.all (fun x => x = r)

/-- `MaterialInformation._component_search_helper`. -/
def component_search_helper (m : MaterialComp) (target_comp : List (String × ℚ))
    (exclude_nv : Bool) : Bool :=
  m.composition.any (fun comp =>
    let subset :=
      if exclude_nv then
        comp.elements.filter (fun p => !(NON_VOLATILE_ELEMENTS.contains p.1))
      else comp.elements
    compare_composition subset target_comp)

def COMP_WATER : List (String × ℚ) := [("H", 2), ("O", 1)]
def COMP_ACETATE : List (String × ℚ) := [("C", 2), ("H", 3), ("O", 2)]
def COMP_ACETATE_CHARGED : List (String × ℚ) := [("C", 2), ("H", 3), ("O", 2), ("e-", 1)]
def COMP_NITRATE : List (String × ℚ) := [("N", 1), ("O", 3)]
def COMP_NITRATE_CHARGED : List (String × ℚ) := [("N", 1), ("O", 3), ("e-", 1)]
def COMP_HYDROXIDE : List (String × ℚ) := [("H", 1), ("O", 1)]
def COMP_HYDROXIDE_CHARGED : List (String × ℚ) := [("H", 1), ("O", 1), ("e-", 1)]
def COMP_CARBONATE : List (String × ℚ) := [("C", 1), ("O", 3)]
def COMP_AMMONIUM : List (String × ℚ) := [("H", 4), ("N", 1)]
def COMP_AMMONIUM_CHARGED : List (String × ℚ) := [("H", 4), ("N", 1), ("e-", -1)]

def has_water (m : MaterialComp) : Bool :=
  component_search_helper m COMP_WATER false

def has_acetate (m : MaterialComp) : Bool :=
  component_search_helper m COMP_ACETATE true

def has_nitrate (m : MaterialComp) : Bool :=
  component_search_helper m COMP_NITRATE true

def has_hydroxide (m : MaterialComp) : Bool :=
  component_search_helper m COMP_HYDROXIDE true

def has_carbonate (m : MaterialComp) : Bool :=
  component_search_helper m COMP_CARBONATE true

def has_ammonium (m : MaterialComp) : Bool :=
  component_search_helper m COMP_AMMONIUM true

/-- Contiguous substring search on character lists (for Python's
`'NH4' in self.material_formula`). -/
def containsSub (hay needle : List Char) : Bool :=
  match hay with
  | [] => needle.isEmpty
  | _ :: t => needle.isPrefixOf hay || containsSub t needle

/-- `MaterialInformation.decompose_chemicals`, built with dict
assignments in source order. -/
def decompose_chemicals (m : MaterialComp) : List (String × List (String × ℚ)) :=
  let d0 : List (String × List (String × ℚ)) := []
  let addSolution (d : List (String × List (String × ℚ))) :=
    dictInsert (dictInsert d "[OH-]" COMP_HYDROXIDE_CHARGED) "H2O" COMP_WATER
  let d1 := if has_water m then dictInsert d0 "H2O" COMP_WATER else d0
  let d2 := if has_acetate m then addSolution (dictInsert d1 "[CH3COO-]" COMP_ACETATE_CHARGED) else d1
  let d3 := if has_nitrate m then addSolution (dictInsert d2 "[NO3-]" COMP_NITRATE_CHARGED) else d2
  let d4 := if has_hydroxide m then addSolution (dictInsert d3 "[OH-]" COMP_HYDROXIDE_CHARGED) else d3
  let d5 := if has_carbonate m then dictInsert d4 "CO2" [("C", 1), ("O", 2)] else d4
  if containsSub m.material_formula.toList "NH4".toList then
    dictInsert d5 "NH3" [("H", 3), ("N", 1)]
  else d5

/-- Dict accumulation `d[k] += v` / `d[k] = v` used by
`MaterialInformation._parse`. -/
def addToDict (d : List (String × ℚ)) (k : String) (v : ℚ) : List (String × ℚ) :=
  if (d.map Prod.fst).contains k then
    d.map (fun p => if p.1 = k then (p.1, p.2 + v) else p)
  else d ++ [(k, v)]

/-- One `_parse` step over the elements of one component: substitute,
check element legality, and accumulate `fraction * amount` into the
non-volatile / other partitions. -/
def parseComponent (sub : List (String × String)) (fraction : ℚ)
    (elems : List (String × ℚ)) (acc : List (String × ℚ) × List (String × ℚ)) :
    Except PyErr (List (String × ℚ) × List (String × ℚ)) :=
  elems.foldlM (fun acc p => do
    let element := lookupD sub p.1 p.1
    if !(ELEMENTS.contains element) then
      throw PyErr.formulaError
    else if NON_VOLATILE_ELEMENTS.contains element then
      pure (addToDict acc.1 element (fraction * p.2), acc.2)
    else
      pure (acc.1, addToDict acc.2 element (fraction * p.2))) acc

/-- `MaterialInformation._parse`, producing the pair
`(non_volatile_elements, other_elements)`. -/
def parseMaterial (m : MaterialComp) :
    Except PyErr (List (String × ℚ) × List (String × ℚ)) :=
  m.composition.foldlM
    (fun acc comp => parseComponent m.substitution_dict comp.amount comp.elements acc)
    ([], [])

/-! ## `completer.py`: `ReactionCompleter`

The completer consumes `MaterialInformation` objects through their
derived accessors (`nv_elements_dict`, `other_elements`,
`decompose_chemicals`, `exchange_chemicals`); `MatInfo A` is that
derived view.  The amount type `A` models sympy expressions: a field
(sympy works in the field of rational functions of the free symbols),
together with the two operations the completer uses on amounts — the
sign probe at `0.001` and `simplify_print`. -/

structure MatInfo (A : Type) where
  material_string : String
  material_formula : String
  nvDict : List (String × A)
  vDict : List (String × A)
  decompose : List (String × List (String × A))
  exchange : List (String × List (String × A))
deriving DecidableEq, Repr

/-- The operations the completer performs on symbolic amounts:
`val.evalf(subs={x: 0.001 for x in val.free_symbols}) < 0` and
`simplify_print(val)`. -/
structure AmountModel (A : Type) where
  probeNeg : A → Bool
  printA : A → String

/-- Python `len(set(l))`. -/
def setSize (l : List String) : ℕ :=
  l.dedup.length

/-- Python set union keeping first-seen order. -/
def setUnion (a b : List String) : List String :=
  a ++ b.filter (fun k => !(a.contains k))

def MatInfo.nv_elements {A : Type} (m : MatInfo A) : List String :=
  dictKeys m.nvDict

def MatInfo.v_elements {A : Type} (m : MatInfo A) : List String :=
  dictKeys m.vDict

/-- `all_elements_dict`: copy of the non-volatile dict updated with the
volatile one. -/
def MatInfo.all_elements_dict {A : Type} (m : MatInfo A) : List (String × A) :=
  dictUpdate m.nvDict m.vDict

def MatInfo.all_elements {A : Type} (m : MatInfo A) : List String :=
  setUnion m.nv_elements m.v_elements

/-- `is_hco`: the element set is exactly `{C, H, O}`. -/
def MatInfo.is_hco {A : Type} (m : MatInfo A) : Bool :=
  subsetB m.all_elements ["C", "H", "O"] && subsetB ["C", "H", "O"] m.all_elements

inductive Side
  | left
  | right
deriving DecidableEq, Repr

/-- The `which_side` tags `'fl'`, `'fr'`, `'dl'`, `'dr'`. -/
inductive SideTag
  | fl
  | fr
  | dl
  | dr
deriving DecidableEq, Repr

/-- `decide_side_value` from `ReactionCompleter._render_reaction`
(completer.py lines 176–193), transcribed branch by branch. -/
def decide_side_value {A : Type} [Neg A] (m : AmountModel A) :
    SideTag → A → Side × A
  | .fl, v => (.left, v)
  | .fr, v => (.right, -v)
  | .dl, v => if m.probeNeg v then (.right, -v) else (.left, v)
  | .dr, v => if m.probeNeg v then (.right, -v) else (.left, v)

/-- State after `ReactionCompleter.__init__` has run `_inspect_target`,
`_prepare_precursors` and `_setup_linear_equation`.
`coefficient_columns` is the transposed coefficient matrix: column `j`
is the element-count vector (over `all_elements`) of the `j`-th
species. -/
structure CompleterState (A : Type) where
  target : MatInfo A
  precursor_candidates : List (MatInfo A)
  decomposition_chemicals : List (String × List (String × A))
  exchange_chemicals : List (String × List (String × A))
  all_elements : List String
  coefficient_columns : List (List A)
  which_side : List SideTag
  target_vector : List A
deriving Repr

/-- Intermediate state of the `_prepare_precursors` loop. -/
structure PrepState (A : Type) where
  seen : List String
  candidates : List (MatInfo A)
  decomp : List (String × List (String × A))

/-- One iteration of the `_prepare_precursors` loop. -/
def prepareStep {A : Type} [DecidableEq A] (t : MatInfo A) (st : PrepState A)
    (p : MatInfo A) : Except PyErr (PrepState A) :=
  if st.seen.contains p.material_formula then pure st
  else
    let st' : PrepState A := { st with seen := st.seen ++ [p.material_formula] }
    if dictEq p.all_elements_dict t.all_elements_dict then
      throw PyErr.stupidRecipe
    else if setSize p.all_elements = 0 then pure st'
    else if !(subsetB p.nv_elements t.nv_elements) then pure st'
    else pure { st' with
      candidates := st'.candidates ++ [p],
      decomp := dictUpdate st'.decomp p.decompose }

/-- `ReactionCompleter._inspect_target`. -/
def inspect_target {A : Type} (t : MatInfo A) (target_min_nv : ℕ) :
    Except PyErr Unit :=
  if setSize t.nv_elements < target_min_nv then throw PyErr.stupidRecipe
  else pure ()

/-- `ReactionCompleter._prepare_precursors`: returns the surviving
candidates, the aggregated decomposition chemicals and the exchange
chemicals. -/
def prepare_precursors {A : Type} [DecidableEq A] (ps : List (MatInfo A))
    (t : MatInfo A) :
    Except PyErr (List (MatInfo A) × List (String × List (String × A)) ×
      List (String × List (String × A))) := do
  let st ← ps.foldlM (prepareStep t) ⟨[], [], []⟩
  let exch := dictUpdate [] t.exchange
  if st.candidates.length = 0 then
    throw PyErr.stupidRecipe
  else
    let nvUnion := st.candidates.foldl (fun acc c => setUnion acc c.nv_elements) []
    if (t.nv_elements.filter (fun e => !(nvUnion.contains e))).dedup.length > 0 then
      throw PyErr.stupidRecipe
    else
      pure (st.candidates, st.decomp, exch)

/-- `fill_row` in `_setup_linear_equation`:
`[material_elements.get(element, 0) for element in all_elements]`. -/
def fillRow {A : Type} [Zero A] (d : List (String × A)) (elems : List String) :
    List A :=
  elems.map (fun e => lookupD d e 0)

/-- `ReactionCompleter._setup_linear_equation` given the prepared
candidates / decomposition / exchange chemicals. -/
def setup_linear_equation {A : Type} [Zero A] (t : MatInfo A)
    (cands : List (MatInfo A))
    (decomp exch : List (String × List (String × A))) : CompleterState A :=
  let all_elements := sortedStrings
    ((cands.foldl (fun acc c => setUnion acc c.all_elements) []
      |> (fun s => setUnion s t.all_elements)
      |> (fun s => exch.foldl (fun acc p => setUnion acc (dictKeys p.2)) s)
      |> (fun s => decomp.foldl (fun acc p => setUnion acc (dictKeys p.2)) s)))
  let precRows := cands.map (fun p => fillRow p.all_elements_dict all_elements)
  let decompRows := (sortedStrings (dictKeys decomp)).map
    (fun chem => fillRow (lookupD decomp chem []) all_elements)
  let exchRows := (sortedStrings (dictKeys exch)).map
    (fun chem => fillRow (lookupD exch chem []) all_elements)
  { target := t
    precursor_candidates := cands
    decomposition_chemicals := decomp
    exchange_chemicals := exch
    all_elements := all_elements
    coefficient_columns := precRows ++ decompRows ++ exchRows
    which_side := cands.map (fun _ => SideTag.fl)
      ++ (sortedStrings (dictKeys decomp)).map (fun _ => SideTag.dr)
      ++ (sortedStrings (dictKeys exch)).map (fun _ => SideTag.dl)
    target_vector := fillRow t.all_elements_dict all_elements }

/-- `ReactionCompleter.__init__`. -/
def mkCompleter {A : Type} [Zero A] [DecidableEq A] (ps : List (MatInfo A))
    (t : MatInfo A) (target_min_nv : ℕ := 2) : Except PyErr (CompleterState A) := do
  inspect_target t target_min_nv
  let (cands, decomp, exch) ← prepare_precursors ps t
  pure (setup_linear_equation t cands decomp exch)

/-- The formulas / chemical names of the system's species, in column
order (precursors, then sorted decompositions, then sorted
exchanges). -/
def speciesNames {A : Type} (c : CompleterState A) : List String :=
  c.precursor_candidates.map (fun p => p.material_formula)
    ++ sortedStrings (dictKeys c.decomposition_chemicals)
    ++ sortedStrings (dictKeys c.exchange_chemicals)

/-- The balanced reaction: the two dicts `balanced['left']` and
`balanced['right']`.  Each entry holds the symbolic amount; the Python
dict stores its printed form `model.printA value`. -/
structure Balanced (A : Type) where
  left : List (String × A)
  right : List (String × A)
deriving DecidableEq, Repr

/-- The side-decided terms of `_render_reaction`, before
zero-suppression: the three `zip` loops over (precursors, sorted
decompositions, sorted exchanges) concatenate to a single zip of the
species names with the solution values and `which_side` tags. -/
def rawTerms {A : Type} [Neg A] (m : AmountModel A) (names : List String)
    (tags : List SideTag) (sol : List A) : List (Side × String × A) :=
  (names.zip (sol.zip tags)).map (fun p =>
    let sv := decide_side_value m p.2.2 p.2.1
    (sv.1, p.1, sv.2))

/-- One dict assignment `balanced[side][name] = value_s`, skipped when
the printed value is `'0'`. -/
def applyTerm {A : Type} (m : AmountModel A) (b : Balanced A)
    (t : Side × String × A) : Balanced A :=
  if m.printA t.2.2 = "0" then b
  else match t.1 with
    | Side.left => { b with left := dictInsert b.left t.2.1 t.2.2 }
    | Side.right => { b with right := dictInsert b.right t.2.1 t.2.2 }

/-- `ReactionCompleter._render_reaction`. -/
def render_reaction {A : Type} [Neg A] [One A] (m : AmountModel A)
    (c : CompleterState A) (sol : List A) : Balanced A :=
  let init : Balanced A := ⟨[], [(c.target.material_formula, 1)]⟩
  (rawTerms m (speciesNames c) c.which_side sol).foldl (applyTerm m) init

/-! ## The symbolic linear solve (`Matrix.gauss_jordan_solve`)

sympy's `gauss_jordan_solve` is external to the repository; it is
modelled here as an executable Gauss–Jordan elimination over the
rationals on the augmented rows of the system.  It returns `none` when
the system is inconsistent (sympy raises `ValueError`), and otherwise
the solution together with the number of free parameters (the length
of sympy's `params`); entries of the solution at free columns are
pinned to `0` (they are never consumed: `compute_reactions` raises
before using them whenever the count is positive). -/

def dotQ (a b : List ℚ) : ℚ :=
  (List.zipWith (· * ·) a b).sum

/-- Gauss–Jordan elimination on augmented rows, one column at a time.
`n` is the number of remaining unknowns; each row is
`(coefficients, right-hand side)`. -/
def gjs : ℕ → List (List ℚ × ℚ) → Option (List ℚ × ℕ)
  | 0, rows =>
    if rows.all (fun r => r.2 = 0) then some ([], 0) else none
  | n + 1, rows =>
    match rows.find? (fun r => r.1.headD 0 ≠ 0) with
    | none =>
      match gjs n (rows.map (fun r => (r.1.tail, r.2))) with
      | none => none
      | some (sol, k) => some (0 :: sol, k + 1)
    | some pivot =>
      let c := pivot.1.headD 0
      let prest := pivot.1.tail.map (fun x => x / c)
      let pr := pivot.2 / c
      let eliminated := (rows.erase pivot).map (fun r =>
        let d := r.1.headD 0
        (List.zipWith (fun a b => a - d * b) r.1.tail prest, r.2 - d * pr))
      match gjs n eliminated with
      | none => none
      | some (sol, k) => some ((pr - dotQ prest sol) :: sol, k)

/-- The augmented rows of `A · v = b`: the stored columns transposed
back to rows over the element index. -/
def systemRows (c : CompleterState ℚ) : List (List ℚ × ℚ) :=
  (List.range c.all_elements.length).map (fun i =>
    (c.coefficient_columns.map (fun col => col.getD i 0),
     c.target_vector.getD i 0))

/-- `a.gauss_jordan_solve(b)` on the completer's linear equation. -/
def gauss_jordan_solve (c : CompleterState ℚ) : Option (List ℚ × ℕ) :=
  gjs c.coefficient_columns.length (systemRows c)

/-- `ReactionCompleter.compute_reactions`: solve, classify, render. -/
def compute_reactions (m : AmountModel ℚ) (c : CompleterState ℚ) :
    Except PyErr (Balanced ℚ) :=
  match gauss_jordan_solve c with
  | none => throw PyErr.tooFewPrecursors
  | some (sol, k) =>
    if 0 < k then throw PyErr.tooManyPrecursors
    else pure (render_reaction m c sol)

/-- The concrete amount model of the float regime: all amounts are
(exact values of) sympy floats, the probe of a constant is the
constant itself, printing is the 3-decimal float printer.  This is the
faithful model only when every input literal has a decimal point; with
integer literals sympy computes in exact `Rational`s and
`simplify_print` raises on non-integer values — that regime is the
fallible `render_reaction_exact` pipeline defined below. -/
def qModel : AmountModel ℚ :=
  ⟨fun v => decide (v < 0), printFloatQ⟩

/-! ## `formatting.py`: `simplify_print`

`SymExpr` models the sympy node kinds that `simplify_print` dispatches
on.  A sympy `Rational` atom with denominator 1 *is* an `Integer` (and
`-1`, `1`, `0` are `NegativeOne`, `One`, `Zero`), so a single `.rat`
constructor carries all `Integer`/`Rational` atoms and the printer's
`isinstance` chain becomes a chain of tests on the value.  A `Mul` is
carried in sympy's canonical form: a numeric coefficient (which
`as_coeff_Mul` extracts; it may be a `Float`) times the remaining
ordered factors. -/

inductive SymExpr
  | float (q : ℚ)
  | add (args : List SymExpr)
  | mul (coeff : ℚ) (coeffIsFloat : Bool) (factors : List SymExpr)
  | rat (q : ℚ)
  | sym (name : String)
deriving Repr

/-- sympy operator precedence, as used by
`precedence(arg) < precedence(expr)`. -/
def SymExpr.prec : SymExpr → ℕ
  | .add _ => 40
  | .mul _ _ _ => 50
  | _ => 1000

/-- The `NegativeOne`/`One`/`Zero`/`Integer` branches of
`simplify_print` on a `Rational` atom; a non-integer `Rational` falls
through every `isinstance` test to the final `raise`. -/
def printRatAtom (q : ℚ) : Except PyErr String :=
  if q = -1 then pure "-1"
  else if q = 1 then pure "1"
  else if q = 0 then pure "0"
  else if q.den = 1 then pure (toString q.num)
  else throw PyErr.expressionPrintError

mutual

/-- `simplify_print` from `formatting.py` (lines 50–104). -/
def simplify_print : SymExpr → Except PyErr String
  | .float q => pure (printFloatQ q)
  | .add args => do
    let expression ← addLoop args ""
    if expression = "" then pure "0" else pure expression
  | .mul coeff coeffIsFloat factors => do
    let (c, sign) := if coeff < 0 then (-coeff, "-") else (coeff, "")
    let coeffStr ← if coeffIsFloat then pure (printFloatQ c) else printRatAtom c
    -- `as_ordered_factors`: the numeric coefficient leads unless it is
    -- the exact `S.One`.
    let coeffExps := if !coeffIsFloat && c = 1 then some []
      else if coeffStr = "0" then none
      else if coeffStr = "1" then some [] else some [coeffStr]
    match coeffExps with
    | none => pure "0"
    | some head =>
      match ← mulLoop factors with
      | none => pure "0"
      | some exps => pure (sign ++ String.intercalate "*" (head ++ exps))
  | .rat q => printRatAtom q
  | .sym n => pure n

/-- The accumulation loop of the `Add` branch. -/
def addLoop : List SymExpr → String → Except PyErr String
  | [], expression => pure expression
  | ele :: rest, expression => do
    let s ← simplify_print ele
    if s = "0" then addLoop rest expression
    else if s.toList.headD ' ' = '-' || expression = "" then
      addLoop rest (expression ++ s)
    else addLoop rest (expression ++ "+" ++ s)

/-- The factor loop of the `Mul` branch: `none` models the early
`return '0'`. -/
def mulLoop : List SymExpr → Except PyErr (Option (List String))
  | [] => pure (some [])
  | arg :: rest => do
    let exp ← simplify_print arg
    if exp = "0" then pure none
    else
      match ← mulLoop rest with
      | none => pure none
      | some exps =>
        if exp = "1" then pure (some exps)
        else
          let exp := if arg.prec < 50 then "(" ++ exp ++ ")" else exp
          pure (some (exp :: exps))

end

/-! ## Raw input records

`balance_recipe` consumes raw dictionaries.  Amounts arrive as strings
or numbers (`PyVal`); `MaterialInformation.__init__` normalizes the
numbers to strings *in place* (material.py lines 58–73), which is
visible to the caller.  `Option` on `elements_vars` / `additives`
models presence of the dictionary key; `none` is an absent key, so a
Python subscript on it raises `KeyError`. -/

inductive PyVal
  | str (s : String)
  | int (n : ℤ)
deriving DecidableEq, Repr

/-- Python `str(...)` on the modelled values. -/
def pyStr : PyVal → String
  | .str s => s
  | .int n => toString n

structure RawComponent where
  amount : PyVal
  elements : List (String × PyVal)
deriving DecidableEq, Repr

structure RawMaterial where
  material_formula : String
  material_string : String
  composition : List RawComponent
  elements_vars : Option (List (String × List String))
  additives : Option (List String)
deriving DecidableEq, Repr

/-- The in-place string normalization of one composition record
performed by `MaterialInformation.__init__`:
`composition['amount'] = str(composition['amount'])` when the amount is
not a string, and likewise for every element value. -/
def normalizeComponent (c : RawComponent) : RawComponent :=
  { amount :=
      match c.amount with
      | PyVal.str s => PyVal.str s
      | v => PyVal.str (pyStr v)
    elements := c.elements.map (fun p =>
      match p.2 with
      | PyVal.str s => (p.1, PyVal.str s)
      | v => (p.1, PyVal.str (pyStr v))) }

/-- The caller-visible state of a composition list after
`MaterialInformation.__init__` has run on it (the caller's dicts are
the very objects the constructor normalizes). -/
def compositionPostState (comps : List RawComponent) : List RawComponent :=
  comps.map normalizeComponent

/-- The caller-visible state of one record's `elements` dict after the
driver's `material_dict_to_info` path: the driver copies the outer
record (so `amount` is written to a copy) but shares the inner
`elements` dict with the caller. -/
def elementsPostState (c : RawComponent) : List (String × PyVal) :=
  (normalizeComponent c).elements

/-- Digit-string value. -/
def digitsVal (cs : List Char) : Option ℕ :=
  cs.foldlM
    (fun acc c => if c.isDigit then some (acc * 10 + (c.toNat - 48)) else none) 0

/-- Numeric fragment of `sympy.parsing.sympy_parser.parse_expr` (and of
`float(...)`): decimal literals with optional sign and fraction part.
The executable pipeline is only ever applied to numeric amounts;
symbolic amount strings are outside this model. -/
def parseDecimal (s : String) : Option ℚ :=
  let cs := s.toList
  let (neg, cs) :=
    match cs with
    | '-' :: t => (true, t)
    | '+' :: t => (false, t)
    | t => (false, t)
  let signed (q : ℚ) : ℚ := if neg then -q else q
  match cs.splitOn '.' with
  | [intp] =>
    if intp.isEmpty then none
    else (digitsVal intp).map (fun n => signed n)
  | [intp, fracp] =>
    if intp.isEmpty && fracp.isEmpty then none
    else
      match digitsVal intp, digitsVal fracp with
      | some i, some f => some (signed (i + (f : ℚ) / (10 : ℚ) ^ fracp.length))
      | _, _ => none
  | _ => none

def parsePy (v : PyVal) : Option ℚ :=
  parseDecimal (pyStr v)

/-- `MaterialInformation.__init__` followed by `_parse`, at the numeric
level: substitution-dict validity checks (`ValueError`), element
legality for unsubstituted elements (`FormulaException`), then parsing
of all amounts (`FormulaException` on failure).  Returns the
`MaterialComp` view consumed by the flag/decomposition machinery. -/
def materialInitQ (material_string material_formula : String)
    (comps : List RawComponent) (sub : Option (List (String × String))) :
    Except PyErr MaterialComp := do
  let all_el := comps.foldl
    (fun acc c => setUnion acc (c.elements.map Prod.fst)) []
  let substituted ←
    match sub with
    | none => pure []
    | some sd => do
      let _ ← sd.foldlM (fun _ p => do
        if !(all_el.contains p.1) then throw PyErr.valueError
        else if !(ELEMENTS.contains p.2) then throw PyErr.valueError
        else pure ()) ()
      pure (sd.map Prod.fst)
  let _ ← all_el.foldlM (fun _ e => do
    if !(substituted.contains e) && !(ELEMENTS.contains e) then
      throw PyErr.formulaError
    else pure ()) ()
  let composition ← comps.mapM (fun c => do
    match parsePy c.amount with
    | none => throw PyErr.formulaError
    | some a => do
      let elems ← c.elements.mapM (fun p => do
        match parsePy p.2 with
        | none => throw PyErr.formulaError
        | some q => pure (p.1, q))
      pure (Component.mk a elems))
  pure { material_string := material_string
         material_formula := material_formula
         composition := composition
         substitution_dict := (sub.getD []) }

/-- `exchange_chemicals`: `O2` iff oxygen occurs among the volatile
elements. -/
def exchange_chemicals (vDict : List (String × ℚ)) :
    List (String × List (String × ℚ)) :=
  if (dictKeys vDict).contains "O" then [("O2", [("O", 2)])] else []

/-- Full construction of the derived `MaterialInformation` view used by
the completer. -/
def mkMaterialInfo (material_string material_formula : String)
    (comps : List RawComponent) (sub : Option (List (String × String))) :
    Except PyErr (MatInfo ℚ) := do
  let mc ← materialInitQ material_string material_formula comps sub
  let (nv, v) ← parseMaterial mc
  pure { material_string := material_string
         material_formula := material_formula
         nvDict := nv
         vDict := v
         decompose := decompose_chemicals mc
         exchange := exchange_chemicals v }

/-! ## `formatting.py`: `find_ions` and `render_reaction` -/

/-- `ions_regex`: the element alternation, longest first
(`sorted(ELEMENTS, key=lambda x: (-len(x), x))`). -/
def ionsSorted : List String :=
  sortBy (fun a b =>
    b.length < a.length || (a.length = b.length && strLe a b)) ELEMENTS

/-- `re.findall` scan for `find_ions`: at each position take the first
alternative that matches, else advance one character. -/
def findIonsAux : ℕ → List Char → List String
  | 0, _ => []
  | _, [] => []
  | fuel + 1, cs =>
    match ionsSorted.find? (fun e => e.toList.isPrefixOf cs) with
    | some e => e :: findIonsAux fuel (cs.drop e.toList.length)
    | none => findIonsAux fuel cs.tail

def find_ions (s : String) : List String :=
  findIonsAux s.toList.length s.toList

/-- Lexicographic `≤` on string pairs (Python tuple comparison). -/
def pairLe (a b : String × String) : Bool :=
  decide (a.1 < b.1) || (a.1 = b.1 && strLe a.2 b.2)

/-- Python tuple key `(x[0] != target, x[0], x[1])` ordering for the
right-hand side. -/
def rightLe (tgt : String) (a b : String × String) : Bool :=
  let ka := a.1 ≠ tgt
  let kb := b.1 ≠ tgt
  (!ka && kb) || (ka = kb && pairLe a b)

/-- `formatting.render_reaction`.  The reaction's dicts store printed
amount strings; here they are recovered as `qModel.printA` of the
stored values. -/
def render_reaction_string (precursors : List RawMaterial)
    (target : RawMaterial) (reaction : Balanced ℚ)
    (element_substitution : Option (List (String × String))) :
    Except PyErr String := do
  let es := element_substitution.getD []
  let leftItems := reaction.left.map (fun p => (p.1, qModel.printA p.2))
  let left_strings := (sortBy pairLe leftItems).map (fun p => p.2 ++ " " ++ p.1)
  let rightItems := reaction.right.map (fun p => (p.1, qModel.printA p.2))
  let right_strings := (sortBy (rightLe target.material_formula) rightItems).map
    (fun p => p.2 ++ " " ++ p.1)
  let reaction_string := String.intercalate " + " left_strings ++ " == " ++
    String.intercalate " + " right_strings
  let reaction_string :=
    if es.length > 0 then
      reaction_string ++ "; " ++
        String.intercalate ", " (es.map (fun p => p.1 ++ " = " ++ p.2))
    else reaction_string
  match target.additives with
  | none => throw PyErr.keyError
  | some adds =>
    if adds.isEmpty then pure reaction_string
    else do
      let additive_ions := (find_ions (String.intercalate " " adds)).dedup
      let additive_precursors ← precursors.foldlM (fun acc p => do
        match mkMaterialInfo p.material_string p.material_formula p.composition none with
        | Except.ok mat_info =>
          if !mat_info.all_elements.isEmpty &&
              mat_info.all_elements.any (fun x => additive_ions.contains x) then
            pure (acc ++ [p.material_formula])
          else pure acc
        | Except.error PyErr.formulaError => pure acc
        | Except.error e => throw e) []
      pure (reaction_string ++ " ; target " ++ target.material_formula ++
        " with additives " ++ String.intercalate ", " adds ++ " via " ++
        String.intercalate ", " (sortedStrings additive_precursors))

/-! ## `driver.py` -/

/-- `driver.material_dict_to_info`. -/
def material_dict_to_info (md : RawMaterial)
    (sub : Option (List (String × String)) := none) :
    Except PyErr (MatInfo ℚ) :=
  mkMaterialInfo md.material_string md.material_formula md.composition sub

/-- `driver.substitute_element_vars`: one `(target, substitution)`
variant per value of each element variable that occurs in the
composition.  `target['elements_vars']` on a record without the key
raises `KeyError`; `reduce` over an empty composition raises
`TypeError`. -/
def substStep (acc : List (RawMaterial × Option (List (String × String))))
    (target : RawMaterial) :
    Except PyErr (List (RawMaterial × Option (List (String × String)))) := do
  let ev ←
    match target.elements_vars with
    | none => throw PyErr.keyError
    | some ev => pure ev
  let has_element_vars := ev.length ≠ 0
  let target_elements ←
    match target.composition.map (fun c => c.elements.map Prod.fst) with
    | [] => throw PyErr.typeError
    | s :: rest => pure (rest.foldl setUnion s)
  let element_vars_used :=
    ((ev.map Prod.fst).dedup).filter (fun k => target_elements.contains k)
  if has_element_vars && decide (element_vars_used.length > 0) then
    pure (acc ++ element_vars_used.flatMap (fun subv =>
      (lookupD ev subv []).map (fun subs => (target, some [(subv, subs)]))))
  else
    pure (acc ++ [(target, none)])

def substitute_element_vars (targets : List RawMaterial) :
    Except PyErr (List (RawMaterial × Option (List (String × String)))) :=
  targets.foldlM substStep []

/-- `driver.screen_good_precursors`: drop precursors whose construction
raises `FormulaException`; any other exception propagates. -/
def screen_good_precursors (precursors : List RawMaterial) :
    Except PyErr (List (MatInfo ℚ)) :=
  precursors.foldlM (fun acc p =>
    match material_dict_to_info p with
    | Except.ok m => pure (acc ++ [m])
    | Except.error PyErr.formulaError => pure acc
    | Except.error e => throw e) []

/-- A solved reaction tuple
`(target_formula, solution, substitution, rendered_string)`. -/
abbrev ReactionTuple : Type :=
  String × Balanced ℚ × Option (List (String × String)) × String

/-- `driver.try_balance`. -/
def try_balance (precursors_to_balance : List (MatInfo ℚ))
    (target : RawMaterial) (substitution : Option (List (String × String)))
    (all_precursors : List RawMaterial) : Except PyErr ReactionTuple := do
  let target_to_balance ← material_dict_to_info target substitution
  let completer ← mkCompleter precursors_to_balance target_to_balance 2
  let solution ← compute_reactions qModel completer
  let rendered ← render_reaction_string all_precursors target solution substitution
  pure (target_to_balance.material_formula, solution, substitution, rendered)

/-- Levenshtein distance (`nltk.metrics.distance.edit_distance` with
default costs). -/
def editDistance : List Char → List Char → ℕ
  | [], bs => bs.length
  | as, [] => as.length
  | a :: as, b :: bs =>
    if a = b then editDistance as bs
    else 1 + min (min (editDistance as (b :: bs)) (editDistance (a :: as) bs))
      (editDistance as bs)
termination_by as bs => as.length + bs.length

/-- `is_word_material`: `re.match(r'^[\w\s()]+$', material_string)`. -/
def is_word_material {A : Type} (m : MatInfo A) : Bool :=
  let ok (c : Char) : Bool :=
    c.isAlphanum || c = '_' || c.isWhitespace || c = '(' || c = ')'
  !m.material_string.toList.isEmpty && m.material_string.toList.all ok

/-- The edit-distance filter
`edit_distance(formula, string) < len(string) * 0.5`. -/
def no_conversion_filter (p : MatInfo ℚ) : Bool :=
  editDistance p.material_formula.toList p.material_string.toList * 2 <
    p.material_string.toList.length

/-- The word-material deduplication: among precursors sharing a
set-of-elements signature, prefer the non-word materials when any
exist. -/
def dedup_word_materials (candidates : List (MatInfo ℚ)) : List (MatInfo ℚ) :=
  let chemOf (p : MatInfo ℚ) : List String := sortedStrings p.all_elements
  let keysOrder := (candidates.map chemOf).dedup
  keysOrder.flatMap (fun k =>
    let materials := candidates.filter (fun p => chemOf p = k)
    if materials.length > 1 then
      let kept := materials.filter (fun x => !(is_word_material x))
      if kept.isEmpty then materials else kept
    else materials)

/-- `driver.find_precursors_in_same_sentence`. -/
def find_precursors_in_same_sentence (precursors_to_balance : List (MatInfo ℚ))
    (sentences : List String) : List (List (MatInfo ℚ)) :=
  let part1 := sentences.foldl (fun acc sentence =>
    let candidates := precursors_to_balance.filter
      (fun p => containsSub sentence.toList p.material_formula.toList)
    let acc := if !candidates.isEmpty then acc ++ [candidates] else acc
    let cnc := candidates.filter no_conversion_filter
    if !cnc.isEmpty then acc ++ [cnc] else acc) []
  sentences.foldl (fun acc sentence =>
    let candidates := precursors_to_balance.filter
      (fun p => containsSub sentence.toList p.material_string.toList)
    let cnc := candidates.filter no_conversion_filter
    let acc := if !cnc.isEmpty then acc ++ [cnc] else acc
    if !candidates.isEmpty then
      acc ++ [candidates] ++ [dedup_word_materials candidates]
    else acc) part1

/-- Modelled from the spec: `errors.py` is not under `src/`; §7 makes
`CannotBalance` "the public exception callers catch", the supertype of
`TooFewPrecursors` and `TooManyPrecursors`, with `StupidRecipe` also
routed into the fallback cascade.  `FormulaException` is caught
separately (screening / per-target). -/
def isCannotBalance : PyErr → Bool
  | PyErr.stupidRecipe => true
  | PyErr.tooFewPrecursors => true
  | PyErr.tooManyPrecursors => true
  | _ => false

/-- The `TooManyPrecursors` fallback loop: try each candidate subset,
accept the first success; `CannotBalance`-family failures move on to
the next subset, anything else propagates (it is raised inside an
`except` block, outside the reach of the surrounding handlers). -/
def trySubsets (cands : List (List (MatInfo ℚ))) (target : RawMaterial)
    (substitution : Option (List (String × String)))
    (precursors : List RawMaterial) : Except PyErr (Option ReactionTuple) :=
  match cands with
  | [] => pure none
  | c :: rest =>
    match try_balance c target substitution precursors with
    | Except.ok sol => pure (some sol)
    | Except.error e =>
      if isCannotBalance e then trySubsets rest target substitution precursors
      else throw e

/-- The body of `balance_recipe`'s per-variant `try`. -/
def balanceVariant (precursors_to_balance : List (MatInfo ℚ))
    (sentences : List String) (precursors : List RawMaterial)
    (target : RawMaterial) (substitution : Option (List (String × String)))
    (solutions : List ReactionTuple) : Except PyErr (List ReactionTuple) :=
  match material_dict_to_info target substitution with
  | Except.error PyErr.formulaError => pure solutions
  | Except.error e => throw e
  | Except.ok _ =>
    match try_balance precursors_to_balance target substitution precursors with
    | Except.ok sol => pure (solutions ++ [sol])
    | Except.error PyErr.tooFewPrecursors =>
      -- retry with the non-organic subset; this code runs inside the
      -- `except TooFewPrecursors` handler, so only
      -- `(CannotBalance, TokenError)` are caught here
      let cands := precursors_to_balance.filter (fun x => !x.is_hco)
      match try_balance cands target substitution precursors with
      | Except.ok sol => pure (solutions ++ [sol])
      | Except.error e =>
        if isCannotBalance e then pure solutions else throw e
    | Except.error PyErr.tooManyPrecursors => do
      let precursor_candidates :=
        find_precursors_in_same_sentence precursors_to_balance sentences
      if precursor_candidates.isEmpty then pure solutions
      else
        match ← trySubsets precursor_candidates target substitution precursors with
        | some sol => pure (solutions ++ [sol])
        | none => pure solutions
    | Except.error _ =>
      -- `except (CannotBalance, TokenError)` and the final
      -- `except Exception` both log and skip the variant
      pure solutions

/-- `driver.balance_recipe`. -/
def balance_recipe (precursors targets : List RawMaterial)
    (sentences : List String := []) : Except PyErr (List ReactionTuple) := do
  let targets_to_balance ← substitute_element_vars targets
  let precursors_to_balance ← screen_good_precursors precursors
  targets_to_balance.foldlM
    (fun solutions p =>
      balanceVariant precursors_to_balance sentences precursors p.1 p.2 solutions)
    []

/-! ## The exact-arithmetic regime of the render pipeline

sympy's number type follows the input literals: an amount string with a
decimal point parses to a `Float`, one without parses to an `Integer`,
and arithmetic over `Integer`s stays in exact `Rational`s.  `qModel`
prints through the 3-decimal `Float` printer and is the faithful model
when every amount literal is a float; when every amount literal is an
integer, the solution coefficients are exact `Rational`s and
`simplify_print` is the `Rational`-atom printer `printRatAtom`, which
raises `ExpressionPrintException` on any non-integer value.  The
`_exact` definitions below are `_render_reaction` and its callers in
that regime; the sign probe of a numeric constant is its own sign in
both regimes, so `qModel`'s probe is shared. -/

/-- One `_render_reaction` update in the exact regime: the suppression
test `simplify_print(value) != '0'` (completer.py lines 200–202) prints
first, so `ExpressionPrintException` propagates out of
`_render_reaction` — which `compute_reactions` calls outside its
`try/except ValueError`. -/
def applyTermExact (b : Balanced ℚ) (t : Side × String × ℚ) :
    Except PyErr (Balanced ℚ) := do
  let s ← printRatAtom t.2.2
  if s = "0" then pure b
  else match t.1 with
    | Side.left => pure { b with left := dictInsert b.left t.2.1 t.2.2 }
    | Side.right => pure { b with right := dictInsert b.right t.2.1 t.2.2 }

/-- `ReactionCompleter._render_reaction` in the exact regime. -/
def render_reaction_exact (c : CompleterState ℚ) (sol : List ℚ) :
    Except PyErr (Balanced ℚ) :=
  (rawTerms qModel (speciesNames c) c.which_side sol).foldlM applyTermExact
    ⟨[], [(c.target.material_formula, 1)]⟩

/-- `ReactionCompleter.compute_reactions` in the exact regime. -/
def compute_reactions_exact (c : CompleterState ℚ) :
    Except PyErr (Balanced ℚ) :=
  match gauss_jordan_solve c with
  | none => throw PyErr.tooFewPrecursors
  | some (sol, k) =>
    if 0 < k then throw PyErr.tooManyPrecursors
    else render_reaction_exact c sol

/-- `driver.try_balance` in the exact regime.  The balanced dicts store
only values whose exact print succeeded, all of integer form, on which
the two printers agree, so the final string rendering is shared. -/
def try_balance_exact (precursors_to_balance : List (MatInfo ℚ))
    (target : RawMaterial) (substitution : Option (List (String × String)))
    (all_precursors : List RawMaterial) : Except PyErr ReactionTuple := do
  let target_to_balance ← material_dict_to_info target substitution
  let completer ← mkCompleter precursors_to_balance target_to_balance 2
  let solution ← compute_reactions_exact completer
  let rendered ← render_reaction_string all_precursors target solution substitution
  pure (target_to_balance.material_formula, solution, substitution, rendered)

/-- The `TooManyPrecursors` fallback loop in the exact regime: the
per-subset handler catches only `(CannotBalance, TokenError)`, so the
printer's `ExpressionPrintException` propagates. -/
def trySubsets_exact (cands : List (List (MatInfo ℚ))) (target : RawMaterial)
    (substitution : Option (List (String × String)))
    (precursors : List RawMaterial) : Except PyErr (Option ReactionTuple) :=
  match cands with
  | [] => pure none
  | c :: rest =>
    match try_balance_exact c target substitution precursors with
    | Except.ok sol => pure (some sol)
    | Except.error e =>
      if isCannotBalance e then trySubsets_exact rest target substitution precursors
      else throw e

/-- The body of `balance_recipe`'s per-variant `try` in the exact
regime. -/
def balanceVariant_exact (precursors_to_balance : List (MatInfo ℚ))
    (sentences : List String) (precursors : List RawMaterial)
    (target : RawMaterial) (substitution : Option (List (String × String)))
    (solutions : List ReactionTuple) : Except PyErr (List ReactionTuple) :=
  match material_dict_to_info target substitution with
  | Except.error PyErr.formulaError => pure solutions
  | Except.error e => throw e
  | Except.ok _ =>
    match try_balance_exact precursors_to_balance target substitution precursors with
    | Except.ok sol => pure (solutions ++ [sol])
    | Except.error PyErr.tooFewPrecursors =>
      let cands := precursors_to_balance.filter (fun x => !x.is_hco)
      match try_balance_exact cands target substitution precursors with
      | Except.ok sol => pure (solutions ++ [sol])
      | Except.error e =>
        if isCannotBalance e then pure solutions else throw e
    | Except.error PyErr.tooManyPrecursors => do
      let precursor_candidates :=
        find_precursors_in_same_sentence precursors_to_balance sentences
      if precursor_candidates.isEmpty then pure solutions
      else
        match ← trySubsets_exact precursor_candidates target substitution precursors with
        | some sol => pure (solutions ++ [sol])
        | none => pure solutions
    | Except.error _ => pure solutions

/-- `driver.balance_recipe` in the exact regime (every amount literal
an integer). -/
def balance_recipe_exact (precursors targets : List RawMaterial)
    (sentences : List String := []) : Except PyErr (List ReactionTuple) := do
  let targets_to_balance ← substitute_element_vars targets
  let precursors_to_balance ← screen_good_precursors precursors
  targets_to_balance.foldlM
    (fun solutions p =>
      balanceVariant_exact precursors_to_balance sentences precursors p.1 p.2 solutions)
    []

/-! ## Derived notions used by the theorem statements -/

/-- View of `Except` as a sum, for decidable equality. -/
def exceptToSum {ε α : Type} : Except ε α → ε ⊕ α
  | Except.error e => Sum.inl e
  | Except.ok a => Sum.inr a

instance {ε α : Type} [DecidableEq ε] [DecidableEq α] :
    DecidableEq (Except ε α) := fun a b =>
  decidable_of_iff (exceptToSum a = exceptToSum b)
    (by cases a <;> cases b <;> simp [exceptToSum])

/-- `A · v` with the stored columns: the linear combination
`Σⱼ vⱼ · colⱼ` of the species element-count vectors, as a vector over
the element index. -/
def matVecCols {A : Type} [CommRing A] (cols : List (List A)) (v : List A)
    (nrows : ℕ) : List A :=
  (cols.zip v).foldl
    (fun acc p => List.zipWith (· + ·) acc (p.1.map (fun x => p.2 * x)))
    (List.replicate nrows (0 : A))

/-- The element-count column of the species named `f`. -/
def speciesColumn {A : Type} (c : CompleterState A) (f : String) : List A :=
  lookupD ((speciesNames c).zip c.coefficient_columns) f []

/-- The count of the `i`-th element (in `all_elements` order) in the
formula of the term named `f` of a rendered reaction: the target's
vector entry for the target formula, the species column entry
otherwise. -/
def countOf {A : Type} [Zero A] (c : CompleterState A) (f : String) (i : ℕ) : A :=
  if f = c.target.material_formula then c.target_vector.getD i 0
  else (speciesColumn c f).getD i 0

/-- `Σ coefficient · count` over the entries of one side of a rendered
reaction, with coefficients evaluated through `φ`. -/
def entriesSum {A : Type} [CommRing A] (φ : A →+* ℚ) (cnt : String → ℚ)
    (entries : List (String × A)) : ℚ :=
  (entries.map (fun p => φ p.2 * cnt p.1)).sum

/-- The terms of a given side that survive zero-suppression. -/
def termsFor {A : Type} (m : AmountModel A) (s : Side)
    (terms : List (Side × String × A)) : List (String × A) :=
  (terms.filter (fun t => !(decide (m.printA t.2.2 = "0")) && decide (t.1 = s))).map
    (fun t => (t.2.1, t.2.2))

/-- First occurrence of each `material_formula` (the `seen_precursors`
dedup of `_prepare_precursors`), relative to an initial seen set. -/
def dedupRel {A : Type} (seen : List String) :
    List (MatInfo A) → List (MatInfo A)
  | [] => []
  | p :: ps =>
    if seen.contains p.material_formula then dedupRel seen ps
    else p :: dedupRel (seen ++ [p.material_formula]) ps

def dedupByFormula {A : Type} (ps : List (MatInfo A)) : List (MatInfo A) :=
  dedupRel [] ps

/-- The screening filter of `_prepare_precursors`: non-empty element
set and no non-volatile element outside the target's. -/
def keepsCandidate {A : Type} (t : MatInfo A) (p : MatInfo A) : Bool :=
  !(decide (setSize p.all_elements = 0)) && subsetB p.nv_elements t.nv_elements

/-- The surviving precursor candidate list. -/
def candidatesOf {A : Type} (ps : List (MatInfo A)) (t : MatInfo A) :
    List (MatInfo A) :=
  (dedupByFormula ps).filter (keepsCandidate t)

/-- Union of the candidates' non-volatile element sets. -/
def nvUnionOf {A : Type} (cs : List (MatInfo A)) : List String :=
  cs.foldl (fun acc c => setUnion acc c.nv_elements) []

/-- Is a raw value already a Python string? -/
def isStrVal : PyVal → Bool
  | PyVal.str _ => true
  | _ => false

/-- All amounts and element values of a raw composition are already
strings. -/
def allStringValues (comps : List RawComponent) : Bool :=
  comps.all (fun c => isStrVal c.amount && c.elements.all (fun p => isStrVal p.2))

/-- A literal that sympy reads as a `Float`: it contains a decimal
point.  Literals without a point are sympy `Integer`s, whose quotients
are exact `Rational`s. -/
def isFloatLiteral (v : PyVal) : Bool :=
  (pyStr v).toList.contains '.'

/-- Every amount and element value of a raw record is a float literal:
the regime in which every symbolic amount of the pipeline is a sympy
`Float`, printed by 3-decimal rounding, and `simplify_print` never
raises — the domain on which `qModel` is the faithful printer. -/
def allFloatAmounts (m : RawMaterial) : Bool :=
  m.composition.all (fun c =>
    isFloatLiteral c.amount && c.elements.all (fun p => isFloatLiteral p.2))

/-- A substitution variant that `materialInitQ` accepts without a
`ValueError`: either no substitution at all, or a single pair whose key
occurs among the composition's element symbols and whose value is a
legal element. -/
def legalSubstitution (t : RawMaterial)
    (s : Option (List (String × String))) : Prop :=
  s = none ∨ ∃ k v, s = some [(k, v)] ∧
    ((t.composition.foldl
      (fun acc c => setUnion acc (c.elements.map Prod.fst)) []).contains k
        = true) ∧
    ELEMENTS.contains v = true

/-! ## Concrete materials for witnesses and counterexamples -/

/-- A raw component with string values. -/
def rc (a : String) (es : List (String × String)) : RawComponent :=
  ⟨PyVal.str a, es.map (fun p => (p.1, PyVal.str p.2))⟩

/-- A raw material whose `elements_vars` and `additives` keys are
present and empty. -/
def rawMat (f : String) (comps : List RawComponent) : RawMaterial :=
  ⟨f, f, comps, some [], some []⟩

def rawBaCO3 : RawMaterial :=
  rawMat "BaCO3" [rc "1.0" [("Ba", "1.0"), ("C", "1.0"), ("O", "3.0")]]

def rawTiO2 : RawMaterial :=
  rawMat "TiO2" [rc "1.0" [("Ti", "1.0"), ("O", "2.0")]]

def rawBaTiO3 : RawMaterial :=
  rawMat "BaTiO3" [rc "1.0" [("Ba", "1.0"), ("Ti", "1.0"), ("O", "3.0")]]

/-- The same target record with the `elements_vars` key absent. -/
def rawBaTiO3NoElementsVars : RawMaterial :=
  ⟨"BaTiO3", "BaTiO3", [rc "1.0" [("Ba", "1.0"), ("Ti", "1.0"), ("O", "3.0")]],
    none, some []⟩

def infoBaCO3 : MatInfo ℚ :=
  { material_string := "BaCO3", material_formula := "BaCO3",
    nvDict := [("Ba", 1)], vDict := [("C", 1), ("O", 3)],
    decompose := [("CO2", [("C", 1), ("O", 2)])],
    exchange := [("O2", [("O", 2)])] }

def infoTiO2 : MatInfo ℚ :=
  { material_string := "TiO2", material_formula := "TiO2",
    nvDict := [("Ti", 1)], vDict := [("O", 2)],
    decompose := [], exchange := [("O2", [("O", 2)])] }

def infoBaTiO3 : MatInfo ℚ :=
  { material_string := "BaTiO3", material_formula := "BaTiO3",
    nvDict := [("Ba", 1), ("Ti", 1)], vDict := [("O", 3)],
    decompose := [], exchange := [("O2", [("O", 2)])] }

/-- The completer state of the `BaCO3 + TiO2 → BaTiO3` recipe (as
produced by `mkCompleter [infoBaCO3, infoTiO2] infoBaTiO3`). -/
def baTiO3State : CompleterState ℚ :=
  setup_linear_equation infoBaTiO3 [infoBaCO3, infoTiO2]
    [("CO2", [("C", 1), ("O", 2)])] [("O2", [("O", 2)])]

/-- The water-only material of the `decompose_chemicals`
counterexample: one `5 H2O` component and no hydroxide / acetate /
nitrate / carbonate group. -/
def waterOnlyMaterial : MaterialComp :=
  { material_string := "CuSO4·5H2O", material_formula := "CuSO4-5H2O",
    composition := [⟨5, [("H", 2), ("O", 1)]⟩], substitution_dict := [] }

/-- `{Ba:1, Ti:1}`, `{Ba:2, Ti:1}` precursors and a `{Ba:3, Ti:1}`
target: a recipe whose unique solution gives the first precursor the
coefficient `-1`. -/
def rawBaTi : RawMaterial :=
  rawMat "BaTi" [rc "1.0" [("Ba", "1.0"), ("Ti", "1.0")]]

def rawBa2Ti : RawMaterial :=
  rawMat "Ba2Ti" [rc "1.0" [("Ba", "2.0"), ("Ti", "1.0")]]

def rawBa3Ti : RawMaterial :=
  rawMat "Ba3Ti" [rc "1.0" [("Ba", "3.0"), ("Ti", "1.0")]]

/-- A `{Ba: 50.0}` precursor, a `{Ti: 1.0}` precursor and a
`{Ba: 0.0125, Ti: 1.0}` target: the unique solution gives the first
precursor the coefficient `(1/80)/50 = 1/4000 = 0.00025`, which the
3-decimal printer renders as `"0"`, so `_render_reaction` silently
drops the term. -/
def rawBa50 : RawMaterial :=
  rawMat "Ba1" [rc "1.0" [("Ba", "50.0")]]

def rawTi1 : RawMaterial :=
  rawMat "Ti1" [rc "1.0" [("Ti", "1.0")]]

def rawBaTiSmall : RawMaterial :=
  rawMat "BaTi" [rc "1.0" [("Ba", "0.0125"), ("Ti", "1.0")]]

def infoBa50 : MatInfo ℚ :=
  { material_string := "Ba1", material_formula := "Ba1",
    nvDict := [("Ba", 50)], vDict := [], decompose := [], exchange := [] }

def infoTi1 : MatInfo ℚ :=
  { material_string := "Ti1", material_formula := "Ti1",
    nvDict := [("Ti", 1)], vDict := [], decompose := [], exchange := [] }

def infoBaTiSmall : MatInfo ℚ :=
  { material_string := "BaTi", material_formula := "BaTi",
    nvDict := [("Ba", 1/80), ("Ti", 1)], vDict := [], decompose := [],
    exchange := [] }

/-- The completer state of the `Ba1 + Ti1 → BaTi` recipe above. -/
def smallCoeffState : CompleterState ℚ :=
  setup_linear_equation infoBaTiSmall [infoBa50, infoTi1] [] []

/-- Integer-literal materials: `Ba2 {Ba:2}`, `Ti2 {Ti:2}`, `Ti4 {Ti:4}`
precursors and a `BaTi4 {Ba:1, Ti:4}` target.  The full set is
underdetermined (`TooManyPrecursors`); the sentence subset `[Ba2, Ti2]`
solves uniquely to `(1/2, 2)`, and the exact printer raises on `1/2`. -/
def rawBa2 : RawMaterial :=
  rawMat "Ba2" [rc "1" [("Ba", "2")]]

def rawTi2 : RawMaterial :=
  rawMat "Ti2" [rc "1" [("Ti", "2")]]

def rawTi4 : RawMaterial :=
  rawMat "Ti4" [rc "1" [("Ti", "4")]]

def rawBaTi4 : RawMaterial :=
  rawMat "BaTi4" [rc "1" [("Ba", "1"), ("Ti", "4")]]

/-! ## Supporting lemmas -/

theorem contains_iff {l : List String} {k : String} :
    l.contains k = true ↔ k ∈ l :=
  List.elem_iff

theorem contains_false_iff {l : List String} {k : String} :
    l.contains k = false ↔ k ∉ l := by
  constructor
  · intro h hm
    rw [contains_iff.mpr hm] at h
    cases h
  · intro h
    cases hc : l.contains k with
    | false => rfl
    | true => exact absurd (contains_iff.mp hc) h

theorem mem_setUnion {a b : List String} {k : String} :
    k ∈ setUnion a b ↔ k ∈ a ∨ k ∈ b := by
  unfold setUnion
  rw [List.mem_append, List.mem_filter]
  constructor
  · rintro (h | ⟨h, _⟩)
    · exact Or.inl h
    · exact Or.inr h
  · rintro (h | h)
    · exact Or.inl h
    · by_cases ha : k ∈ a
      · exact Or.inl ha
      · refine Or.inr ⟨h, ?_⟩
        rw [Bool.not_eq_true', contains_false_iff]
        exact ha

theorem lookupD_cons_self {α : Type} {p : String × α} {rest : List (String × α)}
    {k : String} {dflt : α} (hk : p.1 = k) :
    lookupD (p :: rest) k dflt = p.2 := by
  simp [lookupD, List.find?, hk]

theorem lookupD_cons_ne {α : Type} {p : String × α} {rest : List (String × α)}
    {k : String} {dflt : α} (hk : ¬(p.1 = k)) :
    lookupD (p :: rest) k dflt = lookupD rest k dflt := by
  simp [lookupD, List.find?, hk]

theorem lookupD_mem {α : Type} {d : List (String × α)} {k : String}
    {dflt : α} (h : k ∈ dictKeys d) : (k, lookupD d k dflt) ∈ d := by
  induction d with
  | nil => simp [dictKeys] at h
  | cons p rest ih =>
    by_cases hk : p.1 = k
    · rw [lookupD_cons_self hk, ← hk]
      exact List.mem_cons_self _ _
    · have hmem : k ∈ dictKeys rest := by
        simp only [dictKeys, List.map_cons, List.mem_cons] at h
        rcases h with h | h
        · exact absurd h.symm hk
        · exact h
      rw [lookupD_cons_ne hk]
      exact List.mem_cons_of_mem _ (ih hmem)

theorem dictKeys_dictInsert {α : Type} (d : List (String × α)) (k : String)
    (v : α) :
    dictKeys (dictInsert d k v) =
      if (d.map Prod.fst).contains k then dictKeys d else dictKeys d ++ [k] := by
  unfold dictInsert
  split
  · simp only [dictKeys, List.map_map]
    congr 1
    funext p
    by_cases h : p.1 = k <;> simp [h]
  · simp [dictKeys]

theorem except_throw_eq {α : Type} (e : PyErr) :
    (throw e : Except PyErr α) = Except.error e := rfl

theorem except_pure_eq {α : Type} (a : α) :
    (pure a : Except PyErr α) = Except.ok a := rfl

theorem mem_dictKeys_dictInsert_self {α : Type} (d : List (String × α))
    (k : String) (v : α) : k ∈ dictKeys (dictInsert d k v) := by
  rw [dictKeys_dictInsert]
  split
  · next h => exact contains_iff.mp h
  · simp

theorem mem_dictKeys_dictInsert_of_mem {α : Type} {d : List (String × α)}
    {k' : String} (k : String) (v : α) (h : k' ∈ dictKeys d) :
    k' ∈ dictKeys (dictInsert d k v) := by
  rw [dictKeys_dictInsert]
  split <;> simp [h]

/-! ## Claim theorems -/

/-- **C2** (counterexample): for the decomposition tag `dr` and the
solved value `-1` (whose probe evaluation is negative), the code
places the variable on the *right* with value `-v = 1`, not on the
left as the claim states. -/
theorem decide_side_value_dr_counterexample :
    qModel.probeNeg (-1 : ℚ) = true ∧
    decide_side_value qModel SideTag.dr (-1 : ℚ) = (Side.right, 1) ∧
    decide_side_value qModel SideTag.dr (-1 : ℚ) ≠ (Side.left, 1) := by
  with_unfolding_all decide

/-- **C2** (amended): a `dr` decomposition variable whose value probes
*negative* is placed on the RHS with value `-v`; otherwise it is
placed on the LHS with value `v` — the opposite of the claimed
placement. -/
theorem decide_side_value_dr_amended {A : Type} [Neg A] (m : AmountModel A)
    (v : A) :
    (m.probeNeg v = true →
      decide_side_value m SideTag.dr v = (Side.right, -v)) ∧
    (m.probeNeg v = false →
      decide_side_value m SideTag.dr v = (Side.left, v)) := by
  constructor <;> intro h <;> simp [decide_side_value, h]

theorem decide_side_value_dr_amended_witness :
    qModel.probeNeg (-1 : ℚ) = true ∧
    decide_side_value qModel SideTag.dr (-1 : ℚ) = (Side.right, -(-1 : ℚ)) :=
  ⟨by with_unfolding_all decide,
    (decide_side_value_dr_amended qModel (-1 : ℚ)).1
      (by with_unfolding_all decide)⟩

/-- **C3**: `compute_reactions` fails with `TooManyPrecursors` exactly
when the Gauss–Jordan solve reports one or more free parameters, and
with `TooFewPrecursors` exactly when it reports the system
inconsistent. -/
theorem compute_reactions_error_classification (m : AmountModel ℚ)
    (c : CompleterState ℚ) :
    (compute_reactions m c = Except.error PyErr.tooManyPrecursors ↔
      ∃ sol k, gauss_jordan_solve c = some (sol, k) ∧ 0 < k) ∧
    (compute_reactions m c = Except.error PyErr.tooFewPrecursors ↔
      gauss_jordan_solve c = none) := by
  unfold compute_reactions
  cases h : gauss_jordan_solve c with
  | none => simp [except_throw_eq]
  | some p =>
    obtain ⟨sol, k⟩ := p
    simp only []
    by_cases hk : 0 < k
    · rw [if_pos hk]
      refine ⟨⟨fun _ => ⟨sol, k, rfl, hk⟩, fun _ => rfl⟩, ?_⟩
      simp [except_throw_eq]
    · rw [if_neg hk]
      constructor
      · constructor
        · intro hcontra
          simp [except_pure_eq] at hcontra
        · rintro ⟨sol', k', hsk, hk'⟩
          rw [Option.some_inj] at hsk
          have hk2 : k = k' := congrArg Prod.snd hsk
          rw [← hk2] at hk'
          exact absurd hk' hk
      · simp [except_pure_eq]

/-- **C9** (counterexample): `simplify_print` on the exact rational
one-half raises `ExpressionPrintException` instead of returning
`"1/2"`: a non-integer `Rational` matches none of the printer's
`isinstance` branches. -/
theorem simplify_print_half_counterexample :
    simplify_print (SymExpr.rat (1 / 2)) =
      Except.error PyErr.expressionPrintError ∧
    simplify_print (SymExpr.rat (1 / 2)) ≠ Except.ok "1/2" := by
  have : simplify_print (SymExpr.rat (1 / 2)) =
      Except.error PyErr.expressionPrintError := by
    simp only [simplify_print]
    unfold printRatAtom
    rw [if_neg (show ¬((1 : ℚ) / 2 = -1) by norm_num),
      if_neg (show ¬((1 : ℚ) / 2 = 1) by norm_num),
      if_neg (show ¬((1 : ℚ) / 2 = 0) by norm_num),
      if_neg (show ¬(((1 : ℚ) / 2).den = 1) by with_unfolding_all decide)]
    rfl
  refine ⟨this, ?_⟩
  rw [this]
  simp

/-- **C9** (amended): `simplify_print` renders every *integer*
rational constant, but raises `ExpressionPrintException` on every
non-integer rational constant (such as one-half); no fraction form is
ever produced. -/
theorem simplify_print_rational_behavior (q : ℚ) :
    (q.den ≠ 1 →
      simplify_print (SymExpr.rat q) =
        Except.error PyErr.expressionPrintError) ∧
    (q.den = 1 → ∃ s, simplify_print (SymExpr.rat q) = Except.ok s) := by
  constructor
  · intro hden
    simp only [simplify_print]
    unfold printRatAtom
    split_ifs with hA hB hC hD
    all_goals first
      | rfl
      | exact absurd (by rw [hA]; with_unfolding_all decide) hden
      | exact absurd (by rw [hB]; with_unfolding_all decide) hden
      | exact absurd (by rw [hC]; with_unfolding_all decide) hden
      | exact absurd hD hden
  · intro hden
    simp only [simplify_print]
    unfold printRatAtom
    split_ifs with hA hB hC hD
    all_goals first
      | exact ⟨"-1", rfl⟩
      | exact ⟨"1", rfl⟩
      | exact ⟨"0", rfl⟩
      | exact ⟨toString q.num, rfl⟩
      | exact absurd hden hD

theorem simplify_print_rational_behavior_witness :
    ((1 / 2 : ℚ)).den ≠ 1 ∧
    simplify_print (SymExpr.rat (1 / 2)) =
      Except.error PyErr.expressionPrintError :=
  ⟨by with_unfolding_all decide,
    (simplify_print_rational_behavior (1 / 2)).1
      (by with_unfolding_all decide)⟩

/-- **C8** (counterexample): constructing a `MaterialInformation` on a
composition holding the *number* `1` for `Ba` overwrites the caller's
`elements` dict with the *string* `"1"`: the inputs are mutated. -/
theorem material_init_mutates_counterexample :
    elementsPostState ⟨PyVal.str "1", [("Ba", PyVal.int 1)]⟩
      ≠ [("Ba", PyVal.int 1)] ∧
    elementsPostState ⟨PyVal.str "1", [("Ba", PyVal.int 1)]⟩
      = [("Ba", PyVal.str "1")] := by
  decide

/-- `normalizeComponent` is the identity on components whose amount and
element values are all strings. -/
theorem normalizeComponent_eq_self (c : RawComponent)
    (ha : isStrVal c.amount = true)
    (he : c.elements.all (fun p => isStrVal p.2) = true) :
    normalizeComponent c = c := by
  obtain ⟨a, els⟩ := c
  cases a with
  | int n => simp [isStrVal] at ha
  | str s =>
    simp only [normalizeComponent, RawComponent.mk.injEq, true_and]
    have : ∀ p ∈ els,
        (match p.2 with
         | PyVal.str s => (p.1, PyVal.str s)
         | v => (p.1, PyVal.str (pyStr v))) = p := by
      intro p hp
      have hs := List.all_eq_true.mp he p hp
      obtain ⟨k, pv⟩ := p
      cases pv with
      | int n => simp [isStrVal] at hs
      | str s => simp
    calc els.map _ = els.map id := List.map_congr_left this
      _ = els := List.map_id els

/-- **C8** (amended): the constructor leaves the caller's composition
unchanged exactly on the already-normalized inputs: when every amount
and element value is already a string no mutation happens, while
numeric values are overwritten in place by their string forms. -/
theorem material_init_no_mutation_of_strings (comps : List RawComponent)
    (h : allStringValues comps = true) : compositionPostState comps = comps := by
  unfold compositionPostState
  have : ∀ c ∈ comps, normalizeComponent c = c := by
    intro c hc
    have hc' := List.all_eq_true.mp h c hc
    rw [Bool.and_eq_true] at hc'
    exact normalizeComponent_eq_self c hc'.1 hc'.2
  calc comps.map _ = comps.map id := List.map_congr_left this
    _ = comps := List.map_id comps

theorem material_init_no_mutation_of_strings_witness :
    allStringValues [rc "1.0" [("Ba", "1.0")]] = true ∧
    compositionPostState [rc "1.0" [("Ba", "1.0")]] = [rc "1.0" [("Ba", "1.0")]] :=
  ⟨by decide, material_init_no_mutation_of_strings _ (by decide)⟩

theorem keysSetEq_mem {α β : Type} {c : List (String × α)} {S : List (String × β)}
    (h : keysSetEq c S = true) {p : String × α} (hp : p ∈ c) :
    p.1 ∈ dictKeys S := by
  unfold keysSetEq at h
  rw [Bool.and_eq_true] at h
  exact contains_iff.mp (List.all_eq_true.mp h.1 p.1 (List.mem_map_of_mem _ hp))

theorem compare_lookup_ne_zero {c S : List (String × ℚ)}
    (hS : ∀ p ∈ S, p.2 ≠ 0) (hk : keysSetEq c S = true)
    {p : String × ℚ} (hp : p ∈ c) : lookupD S p.1 0 ≠ 0 :=
  hS _ (lookupD_mem (keysSetEq_mem hk hp))

/-- **C7** (counterexample): the comparator accepts
`{H: -2, O: -1}` against the water signature `{H: 2, O: 1}` although
the single scaling factor is `-1` — it never checks that the scalar is
strictly positive. -/
theorem compare_composition_negative_scalar_counterexample :
    compare_composition [("H", -2), ("O", -1)] COMP_WATER = true ∧
    ¬(∃ r : ℚ, 0 < r ∧ (-2 : ℚ) = r * 2 ∧ (-1 : ℚ) = r * 1) := by
  constructor
  · with_unfolding_all decide
  · rintro ⟨r, hr, -, h1⟩
    rw [mul_one] at h1
    rw [← h1] at hr
    norm_num at hr

/-- **C7** (amended): for signatures with nonzero entries, the
comparator matches iff the key sets agree, the map is nonempty, and
the map is `r` times the signature for a *single* scalar `r` — which
may be zero or negative; strict positivity is not required. -/
theorem compare_composition_iff (c S : List (String × ℚ))
    (hS : ∀ p ∈ S, p.2 ≠ 0) :
    compare_composition c S = true ↔
      (keysSetEq c S = true ∧ c ≠ [] ∧
        ∃ r : ℚ, ∀ p ∈ c, p.2 = r * lookupD S p.1 0) := by
  unfold compare_composition
  by_cases hk : keysSetEq c S = true
  · cases c with
    | nil => simp
    | cons p rest =>
      rw [if_neg (by simp [hk])]
      simp only [List.map_cons]
      have hLp : lookupD S p.1 0 ≠ 0 :=
        compare_lookup_ne_zero hS hk (List.mem_cons_self _ _)
      constructor
      · intro hall
        refine ⟨hk, by simp, p.2 / lookupD S p.1 0, ?_⟩
        intro q hq
        rcases List.mem_cons.mp hq with rfl | hq'
        · exact (div_mul_cancel₀ _ hLp).symm
        · have hx := List.all_eq_true.mp hall _ (List.mem_map_of_mem _ hq')
          rw [decide_eq_true_iff] at hx
          have hLq : lookupD S q.1 0 ≠ 0 :=
            compare_lookup_ne_zero hS hk (List.mem_cons_of_mem _ hq')
          calc q.2 = q.2 / lookupD S q.1 0 * lookupD S q.1 0 :=
                (div_mul_cancel₀ _ hLq).symm
            _ = p.2 / lookupD S p.1 0 * lookupD S q.1 0 := by rw [hx]
      · rintro ⟨-, -, r, hr⟩
        apply List.all_eq_true.mpr
        intro x hx
        obtain ⟨q, hq', rfl⟩ := List.mem_map.mp hx
        rw [decide_eq_true_iff]
        have hLq : lookupD S q.1 0 ≠ 0 :=
          compare_lookup_ne_zero hS hk (List.mem_cons_of_mem _ hq')
        rw [hr q (List.mem_cons_of_mem _ hq'),
          hr p (List.mem_cons_self _ _),
          mul_div_assoc, div_self hLq, mul_one,
          mul_div_assoc, div_self hLp, mul_one]
  · rw [if_pos (by simp [hk])]
    simp [hk]

theorem compare_composition_iff_witness :
    (∀ p ∈ COMP_WATER, p.2 ≠ 0) ∧
    compare_composition [("H", 4), ("O", 2)] COMP_WATER = true :=
  ⟨by with_unfolding_all decide,
    (compare_composition_iff [("H", 4), ("O", 2)] COMP_WATER
      (by with_unfolding_all decide)).mpr
      ⟨by with_unfolding_all decide, by simp,
        ⟨2, by with_unfolding_all decide⟩⟩⟩

/-- **C6** (counterexample): a material with a pure water component
(`5 H2O`) has `has_water` but none of the other groups, and its
`decompose_chemicals` contains only `H2O` — the key `[OH-]` is
missing, contradicting "any water or hydroxide group implies `[OH-]`
and `H2O`". -/
theorem water_only_decompose_counterexample :
    has_water waterOnlyMaterial = true ∧
    has_hydroxide waterOnlyMaterial = false ∧
    "H2O" ∈ dictKeys (decompose_chemicals waterOnlyMaterial) ∧
    "[OH-]" ∉ dictKeys (decompose_chemicals waterOnlyMaterial) := by
  with_unfolding_all decide

/-- **C6** (amended): the solution pair `([OH-], H2O)` is guaranteed by
an acetate, nitrate or *hydroxide* group; a water group alone
guarantees only the key `H2O`. -/
theorem decompose_chemicals_group_keys (mc : MaterialComp) :
    ((has_acetate mc = true ∨ has_nitrate mc = true ∨ has_hydroxide mc = true) →
      "[OH-]" ∈ dictKeys (decompose_chemicals mc) ∧
      "H2O" ∈ dictKeys (decompose_chemicals mc)) ∧
    (has_water mc = true → "H2O" ∈ dictKeys (decompose_chemicals mc)) := by
  constructor
  · intro h
    unfold decompose_chemicals
    split_ifs <;>
      first
        | exact ⟨by with_unfolding_all decide, by with_unfolding_all decide⟩
        | (rcases h with h' | h' | h' <;> simp_all)
  · intro h
    unfold decompose_chemicals
    split_ifs <;>
      first
        | exact (by with_unfolding_all decide)
        | simp_all

theorem decompose_chemicals_group_keys_witness :
    has_hydroxide waterOnlyMaterial = false ∧
    has_water waterOnlyMaterial = true ∧
    "H2O" ∈ dictKeys (decompose_chemicals waterOnlyMaterial) :=
  ⟨by with_unfolding_all decide, by with_unfolding_all decide,
    (decompose_chemicals_group_keys waterOnlyMaterial).2
      (by with_unfolding_all decide)⟩

/-- **C5** (counterexample): `balance_recipe` on the precursors
`{Ba:1,Ti:1}`, `{Ba:2,Ti:1}` and target `{Ba:3,Ti:1}` returns a
reaction whose LHS carries the printed coefficient `-1` (a precursor
coefficient is used as-is, even when negative). -/
theorem printed_coefficient_negative_counterexample :
    balance_recipe [rawBaTi, rawBa2Ti] [rawBa3Ti] []
      = Except.ok [("Ba3Ti",
        ⟨[("BaTi", -1), ("Ba2Ti", 2)], [("Ba3Ti", 1)]⟩, none,
        "2 Ba2Ti + -1 BaTi == 1 Ba3Ti")] ∧
    qModel.printA (-1 : ℚ) = "-1" ∧ (-1 : ℚ) < 0 := by
  refine ⟨?_, ?_, ?_⟩ <;> with_unfolding_all decide

/-- **C5** (amended): only the decomposition (`dr`) and exchange
(`dl`) coefficients are sign-corrected, and only at the `0.001` probe
assignment: for a probe evaluation `π` the placed value of a `dl`/`dr`
variable is non-negative under `π`.  Precursor (`fl`) coefficients are
placed on the LHS unchanged and may be negative (see the
counterexample). -/
theorem d_class_value_nonneg_at_probe {A : Type} [Ring A]
    (m : AmountModel A) (π : A →+* ℚ)
    (hprobe : ∀ a, m.probeNeg a = decide (π a < 0))
    (tag : SideTag) (htag : tag = SideTag.dl ∨ tag = SideTag.dr) (v : A) :
    0 ≤ π (decide_side_value m tag v).2 := by
  have key : 0 ≤ π (if m.probeNeg v then (Side.right, -v) else (Side.left, v)).2 := by
    by_cases hp : m.probeNeg v = true
    · rw [if_pos hp]
      have hd := hprobe v
      rw [hp] at hd
      have hneg : π v < 0 := of_decide_eq_true hd.symm
      simp only [map_neg]
      linarith
    · rw [if_neg hp]
      have hd := hprobe v
      rw [Bool.not_eq_true] at hp
      rw [hp] at hd
      have hnn : ¬(π v < 0) := of_decide_eq_false hd.symm
      linarith
  rcases htag with rfl | rfl <;> exact key

theorem d_class_value_nonneg_at_probe_witness :
    (SideTag.dr = SideTag.dl ∨ SideTag.dr = SideTag.dr) ∧
    0 ≤ (RingHom.id ℚ) (decide_side_value qModel SideTag.dr (-1 : ℚ)).2 :=
  ⟨Or.inr rfl,
    d_class_value_nonneg_at_probe qModel (RingHom.id ℚ) (fun _ => rfl)
      SideTag.dr (Or.inr rfl) (-1)⟩

/-- **C10** (counterexample): a target record without the
`elements_vars` key makes `balance_recipe` raise `KeyError` from
`substitute_element_vars` — the key is not optional. -/
theorem balance_recipe_missing_elements_vars_counterexample :
    rawBaTiO3NoElementsVars.elements_vars = none ∧
    balance_recipe [rawBaCO3, rawTiO2] [rawBaTiO3NoElementsVars] []
      = Except.error PyErr.keyError := by
  constructor
  · rfl
  · with_unfolding_all decide

theorem dictInsert_fresh {α : Type} {d : List (String × α)} {k : String}
    {v : α} (h : k ∉ dictKeys d) : dictInsert d k v = d ++ [(k, v)] := by
  unfold dictInsert
  rw [if_neg]
  intro hc
  exact h (contains_iff.mp hc)

theorem termsFor_cons_suppressed {A : Type} (m : AmountModel A) (s : Side)
    (t : Side × String × A) (ts : List (Side × String × A))
    (h : m.printA t.2.2 = "0") :
    termsFor m s (t :: ts) = termsFor m s ts := by
  simp [termsFor, List.filter_cons, h]

theorem termsFor_cons_same {A : Type} (m : AmountModel A)
    (t : Side × String × A) (ts : List (Side × String × A))
    (h : ¬(m.printA t.2.2 = "0")) :
    termsFor m t.1 (t :: ts) = (t.2.1, t.2.2) :: termsFor m t.1 ts := by
  simp [termsFor, List.filter_cons, h]

theorem termsFor_cons_other {A : Type} (m : AmountModel A) (s : Side)
    (t : Side × String × A) (ts : List (Side × String × A))
    (h : ¬(t.1 = s)) :
    termsFor m s (t :: ts) = termsFor m s ts := by
  by_cases hz : m.printA t.2.2 = "0"
  · simp [termsFor, List.filter_cons, hz]
  · simp [termsFor, List.filter_cons, hz, h]

/-- The three rendering loops turn the term list into the two
side-dicts by dict assignment; with pairwise-distinct keys this is
plain appending. -/
theorem applyTerms_fold {A : Type} (m : AmountModel A) :
    ∀ (terms : List (Side × String × A)) (b : Balanced A),
    (terms.map (fun t => t.2.1)).Nodup →
    (∀ t ∈ terms, t.2.1 ∉ dictKeys b.left) →
    (∀ t ∈ terms, t.2.1 ∉ dictKeys b.right) →
    terms.foldl (applyTerm m) b =
      ⟨b.left ++ termsFor m Side.left terms,
        b.right ++ termsFor m Side.right terms⟩
  | [], b, _, _, _ => by
    simp [termsFor]
  | t :: ts, b, hnd, hL, hR => by
    rw [List.foldl_cons]
    have hnd' : (ts.map (fun t => t.2.1)).Nodup := by
      rw [List.map_cons, List.nodup_cons] at hnd
      exact hnd.2
    have hkey : t.2.1 ∉ ts.map (fun t => t.2.1) := by
      rw [List.map_cons, List.nodup_cons] at hnd
      exact hnd.1
    by_cases hz : m.printA t.2.2 = "0"
    · have happ : applyTerm m b t = b := by simp [applyTerm, hz]
      rw [happ, applyTerms_fold m ts b hnd'
        (fun u hu => hL u (List.mem_cons_of_mem _ hu))
        (fun u hu => hR u (List.mem_cons_of_mem _ hu)),
        termsFor_cons_suppressed m _ t ts hz,
        termsFor_cons_suppressed m _ t ts hz]
    · cases hside : t.1 with
      | left =>
        have happ : applyTerm m b t =
            ⟨b.left ++ [(t.2.1, t.2.2)], b.right⟩ := by
          simp only [applyTerm, hz, if_false, hside]
          rw [dictInsert_fresh (hL t (List.mem_cons_self _ _))]
        rw [happ]
        rw [applyTerms_fold m ts ⟨b.left ++ [(t.2.1, t.2.2)], b.right⟩ hnd'
          (fun u hu => by
            simp only [dictKeys, List.map_append, List.mem_append,
              List.map_cons, List.map_nil, List.mem_singleton]
            rintro (h1 | h1)
            · exact hL u (List.mem_cons_of_mem _ hu) h1
            · exact hkey (h1 ▸ List.mem_map_of_mem _ hu))
          (fun u hu => hR u (List.mem_cons_of_mem _ hu))]
        have h1 : termsFor m Side.left (t :: ts) =
            (t.2.1, t.2.2) :: termsFor m Side.left ts := by
          have := termsFor_cons_same m t ts hz
          rwa [hside] at this
        have h2 : termsFor m Side.right (t :: ts) =
            termsFor m Side.right ts := by
          apply termsFor_cons_other
          rw [hside]
          simp
        rw [h1, h2]
        simp
      | right =>
        have happ : applyTerm m b t =
            ⟨b.left, b.right ++ [(t.2.1, t.2.2)]⟩ := by
          simp only [applyTerm, hz, if_false, hside]
          rw [dictInsert_fresh (hR t (List.mem_cons_self _ _))]
        rw [happ]
        rw [applyTerms_fold m ts ⟨b.left, b.right ++ [(t.2.1, t.2.2)]⟩ hnd'
          (fun u hu => hL u (List.mem_cons_of_mem _ hu))
          (fun u hu => by
            simp only [dictKeys, List.map_append, List.mem_append,
              List.map_cons, List.map_nil, List.mem_singleton]
            rintro (h1 | h1)
            · exact hR u (List.mem_cons_of_mem _ hu) h1
            · exact hkey (h1 ▸ List.mem_map_of_mem _ hu))]
        have h1 : termsFor m Side.right (t :: ts) =
            (t.2.1, t.2.2) :: termsFor m Side.right ts := by
          have := termsFor_cons_same m t ts hz
          rwa [hside] at this
        have h2 : termsFor m Side.left (t :: ts) =
            termsFor m Side.left ts := by
          apply termsFor_cons_other
          rw [hside]
          simp
        rw [h1, h2]
        simp

theorem entriesSum_append {A : Type} [CommRing A] (φ : A →+* ℚ)
    (cnt : String → ℚ) (l1 l2 : List (String × A)) :
    entriesSum φ cnt (l1 ++ l2) = entriesSum φ cnt l1 + entriesSum φ cnt l2 := by
  simp [entriesSum]

theorem entriesSum_cons {A : Type} [CommRing A] (φ : A →+* ℚ)
    (cnt : String → ℚ) (p : String × A) (l : List (String × A)) :
    entriesSum φ cnt (p :: l) = φ p.2 * cnt p.1 + entriesSum φ cnt l := by
  simp [entriesSum]

/-- The signed contribution of each side-decided term equals
`φ v · cnt n` regardless of the tag and of zero-suppression. -/
theorem signed_terms_sum {A : Type} [CommRing A] (m : AmountModel A)
    (φ : A →+* ℚ) (cnt : String → ℚ) :
    ∀ (ns : List String) (vs : List A) (ts : List SideTag),
    (∀ t ∈ rawTerms m ns ts vs, m.printA t.2.2 = "0" → φ t.2.2 = 0) →
    entriesSum φ cnt (termsFor m Side.left (rawTerms m ns ts vs))
      - entriesSum φ cnt (termsFor m Side.right (rawTerms m ns ts vs))
    = ((ns.zip (vs.zip ts)).map (fun p => φ p.2.1 * cnt p.1)).sum
  | [], vs, ts, _ => by simp [rawTerms, termsFor, entriesSum]
  | n :: ns, [], ts, _ => by simp [rawTerms, termsFor, entriesSum]
  | n :: ns, v :: vs, [], _ => by simp [rawTerms, termsFor, entriesSum]
  | n :: ns, v :: vs, t :: ts, hzero => by
    obtain ⟨s, w, hsw⟩ : ∃ s w, decide_side_value m t v = (s, w) := ⟨_, _, rfl⟩
    have hraw : rawTerms m (n :: ns) (t :: ts) (v :: vs) =
        (s, n, w) :: rawTerms m ns ts vs := by
      simp [rawTerms, hsw]
    have ih := signed_terms_sum m φ cnt ns vs ts (fun u hu hz =>
      hzero u (by rw [hraw]; exact List.mem_cons_of_mem _ hu) hz)
    rw [hraw, List.zip_cons_cons, List.zip_cons_cons, List.map_cons,
      List.sum_cons]
    have hcase : (s, w) = (Side.left, v) ∨ (s, w) = (Side.right, -v) := by
      rw [← hsw]
      cases t with
      | fl => simp [decide_side_value]
      | fr => simp [decide_side_value]
      | dl =>
        by_cases hp : m.probeNeg v = true <;>
          simp [decide_side_value, hp]
      | dr =>
        by_cases hp : m.probeNeg v = true <;>
          simp [decide_side_value, hp]
    by_cases hz : m.printA w = "0"
    · -- suppressed: the head contributes zero on both sides, and
      -- `φ v = 0` because `φ w = 0` and `w = ±v`
      have hφw : φ w = 0 := hzero _ (by rw [hraw]; exact List.mem_cons_self _ _) hz
      have hφv : φ v = 0 := by
        rcases hcase with h | h
        · have hwv : w = v := congrArg Prod.snd h
          rw [← hwv]
          exact hφw
        · have hwv : w = -v := congrArg Prod.snd h
          have h2 : φ w = -φ v := by rw [hwv, map_neg]
          rw [h2] at hφw
          linarith
      rw [termsFor_cons_suppressed m _ _ _ hz,
        termsFor_cons_suppressed m _ _ _ hz, ih, hφv]
      ring
    · -- kept: the sign of the side cancels the sign applied to `w`
      rcases hcase with h | h
      · have hss : s = Side.left := congrArg Prod.fst h
        have hwv : w = v := congrArg Prod.snd h
        subst hss
        subst hwv
        have h1 : termsFor m Side.left ((Side.left, n, w) :: rawTerms m ns ts vs) =
            (n, w) :: termsFor m Side.left (rawTerms m ns ts vs) :=
          termsFor_cons_same m (Side.left, n, w) (rawTerms m ns ts vs) hz
        have h2 : termsFor m Side.right ((Side.left, n, w) :: rawTerms m ns ts vs) =
            termsFor m Side.right (rawTerms m ns ts vs) :=
          termsFor_cons_other m _ _ _ (by simp)
        rw [h1, h2, entriesSum_cons]
        linarith [ih]
      · have hss : s = Side.right := congrArg Prod.fst h
        have hwv : w = -v := congrArg Prod.snd h
        subst hss
        have h1 : termsFor m Side.right ((Side.right, n, w) :: rawTerms m ns ts vs) =
            (n, w) :: termsFor m Side.right (rawTerms m ns ts vs) :=
          termsFor_cons_same m (Side.right, n, w) (rawTerms m ns ts vs) hz
        have h2 : termsFor m Side.left ((Side.right, n, w) :: rawTerms m ns ts vs) =
            termsFor m Side.left (rawTerms m ns ts vs) :=
          termsFor_cons_other m _ _ _ (by simp)
        rw [h1, h2, entriesSum_cons]
        have hφw : φ ((n, w).2) = -φ v := by
          rw [hwv]
          exact map_neg φ v
        rw [hφw]
        linarith [ih]

theorem zip_lookup_nodup {α : Type} (dflt : α) :
    ∀ (ns : List String) (cs : List α), ns.Nodup →
    ∀ p ∈ ns.zip cs, lookupD (ns.zip cs) p.1 dflt = p.2
  | [], cs, _, p, hp => by simp at hp
  | n :: ns, [], _, p, hp => by simp at hp
  | n :: ns, c :: cs, hnd, p, hp => by
    rw [List.zip_cons_cons] at hp
    rcases List.mem_cons.mp hp with rfl | hp'
    · rw [List.zip_cons_cons, lookupD_cons_self rfl]
    · obtain ⟨k, x⟩ := p
      have hk : k ∈ ns := (List.of_mem_zip hp').1
      have hne : ¬((n, c).1 = (k, x).1) := by
        rw [List.nodup_cons] at hnd
        intro h
        have hnk : n = k := h
        exact hnd.1 (hnk ▸ hk)
      rw [List.zip_cons_cons, lookupD_cons_ne hne]
      exact zip_lookup_nodup dflt ns cs (List.nodup_cons.mp hnd).2 (k, x) hp'

theorem rawTerms_names {A : Type} [Neg A] (m : AmountModel A) :
    ∀ (ns : List String) (ts : List SideTag) (vs : List A),
    vs.length = ns.length → ts.length = ns.length →
    (rawTerms m ns ts vs).map (fun t => t.2.1) = ns
  | [], ts, vs, _, _ => by simp [rawTerms]
  | n :: ns, [], vs, _, h2 => by simp at h2
  | n :: ns, t :: ts, [], h1, _ => by simp at h1
  | n :: ns, t :: ts, v :: vs, h1, h2 => by
    have ih := rawTerms_names m ns ts vs (by simpa using h1) (by simpa using h2)
    simp only [rawTerms, List.zip_cons_cons, List.map_cons] at ih ⊢
    exact congrArg (List.cons n) ih

theorem sum_over_zip_eq {A : Type} [CommRing A] (φ : A →+* ℚ)
    (cntF : String → ℚ) (i : ℕ) :
    ∀ (ns : List String) (vs : List A) (ts : List SideTag)
      (cs : List (List A)),
    ns.length = cs.length → vs.length = cs.length → ts.length = cs.length →
    (∀ p ∈ ns.zip cs, cntF p.1 = φ (p.2.getD i 0)) →
    ((ns.zip (vs.zip ts)).map (fun p => φ p.2.1 * cntF p.1)).sum
      = ((cs.zip vs).map (fun p => φ p.2 * φ (p.1.getD i 0))).sum
  | [], vs, ts, cs, h1, _, _, _ => by
    have : cs = [] := by
      cases cs with
      | nil => rfl
      | cons c cs' => simp at h1
    subst this
    simp
  | n :: ns, vs, ts, cs, h1, h2, h3, hcnt => by
    cases cs with
    | nil => simp at h1
    | cons col cs' =>
      cases vs with
      | nil => simp at h2
      | cons v vs' =>
        cases ts with
        | nil => simp at h3
        | cons t ts' =>
          rw [List.zip_cons_cons, List.zip_cons_cons, List.map_cons,
            List.sum_cons, List.zip_cons_cons, List.map_cons, List.sum_cons]
          have hhead : cntF n = φ (col.getD i 0) :=
            hcnt (n, col) (by rw [List.zip_cons_cons]; exact List.mem_cons_self _ _)
          have ih := sum_over_zip_eq φ cntF i ns vs' ts' cs'
            (by simpa using h1) (by simpa using h2) (by simpa using h3)
            (fun p hp => hcnt p
              (by rw [List.zip_cons_cons]; exact List.mem_cons_of_mem _ hp))
          rw [hhead, ih]

theorem zipWith_add_getD {A : Type} [CommRing A] (as bs : List A) (i : ℕ)
    (h : as.length = bs.length) :
    (List.zipWith (· + ·) as bs).getD i 0 = as.getD i 0 + bs.getD i 0 := by
  rw [List.getD_eq_getElem?_getD, List.getD_eq_getElem?_getD,
    List.getD_eq_getElem?_getD, List.getElem?_zipWith]
  by_cases hi : i < as.length
  · rw [List.getElem?_eq_getElem hi,
      List.getElem?_eq_getElem (show i < bs.length by omega)]
    simp
  · rw [List.getElem?_eq_none (show as.length ≤ i by omega),
      List.getElem?_eq_none (show bs.length ≤ i by omega)]
    simp

theorem map_mul_getD {A : Type} [CommRing A] (c : A) (l : List A) (i : ℕ) :
    (l.map (fun x => c * x)).getD i 0 = c * l.getD i 0 := by
  rw [List.getD_eq_getElem?_getD, List.getD_eq_getElem?_getD,
    List.getElem?_map]
  cases l[i]? <;> simp

theorem matVec_fold {A : Type} [CommRing A] (i : ℕ) :
    ∀ (pairs : List (List A × A)) (acc : List A),
    (∀ p ∈ pairs, p.1.length = acc.length) →
    ((pairs.foldl
        (fun acc p => List.zipWith (· + ·) acc (p.1.map (fun x => p.2 * x)))
        acc).getD i 0
      = acc.getD i 0 + (pairs.map (fun p => p.2 * p.1.getD i 0)).sum)
  | [], acc, _ => by simp
  | p :: ps, acc, hlen => by
    rw [List.foldl_cons]
    have hacc : (List.zipWith (· + ·) acc
        (p.1.map (fun x => p.2 * x))).length = acc.length := by
      rw [List.length_zipWith, List.length_map,
        hlen p (List.mem_cons_self _ _), min_self]
    have hlen' : ∀ q ∈ ps, q.1.length = (List.zipWith (· + ·) acc
        (p.1.map (fun x => p.2 * x))).length := by
      intro q hq
      rw [hacc]
      exact hlen q (List.mem_cons_of_mem _ hq)
    rw [matVec_fold i ps _ hlen',
      zipWith_add_getD _ _ _
        (by rw [List.length_map]; exact (hlen p (List.mem_cons_self _ _)).symm),
      map_mul_getD, List.map_cons, List.sum_cons]
    ring

theorem replicate_getD_zero {A : Type} [CommRing A] (n i : ℕ) :
    (List.replicate n (0 : A)).getD i 0 = 0 := by
  rw [List.getD_eq_getElem?_getD, List.getElem?_replicate]
  split <;> rfl

/-- `φ` of the `i`-th entry of `A · v` is the evaluated linear
combination of the column entries. -/
theorem matVecCols_getD {A : Type} [CommRing A] (φ : A →+* ℚ)
    (cols : List (List A)) (v : List A) (nrows i : ℕ)
    (hcols : ∀ col ∈ cols, col.length = nrows) :
    φ ((matVecCols cols v nrows).getD i 0)
      = ((cols.zip v).map (fun p => φ p.2 * φ (p.1.getD i 0))).sum := by
  unfold matVecCols
  rw [matVec_fold i (cols.zip v) _
    (fun p hp => by
      rw [List.length_replicate]
      obtain ⟨a, b⟩ := p
      exact hcols a (List.of_mem_zip hp).1),
    replicate_getD_zero, zero_add, map_list_sum, List.map_map]
  congr 1
  apply List.map_congr_left
  intro p _
  simp [map_mul]

/-- **C1** (amended): atomic conservation holds exactly on the
evaluations that zero the suppressed terms.  For any completer state
whose columns are the element vectors of its species (with distinct
species and target names), any exact solution of `A·v = b`, and any
evaluation `φ` of the symbolic amounts under which every term printed
as `'0'` evaluates to `0` (hypothesis `hzero`), the signed sum of
`coefficient · element-count` over the terms of the rendered reaction
vanishes: the LHS total equals the RHS total (the target appearing on
the RHS with coefficient 1).  `hzero` is not free: the printer rounds
to 3 decimals, so a nonzero coefficient below `0.0005` prints `'0'`
and its term is silently dropped, violating conservation — see the
counterexample. -/
theorem atomic_conservation {A : Type} [CommRing A] (m : AmountModel A)
    (c : CompleterState A) (φ : A →+* ℚ) (sol : List A) (i : ℕ)
    (hcols : ∀ col ∈ c.coefficient_columns,
      col.length = c.all_elements.length)
    (hnames : (speciesNames c).length = c.coefficient_columns.length)
    (hsol : sol.length = c.coefficient_columns.length)
    (hws : c.which_side.length = c.coefficient_columns.length)
    (hnodup : (speciesNames c ++ [c.target.material_formula]).Nodup)
    (hzero : ∀ t ∈ rawTerms m (speciesNames c) c.which_side sol,
      m.printA t.2.2 = "0" → φ t.2.2 = 0)
    (hsat : matVecCols c.coefficient_columns sol c.all_elements.length
      = c.target_vector) :
    entriesSum φ (fun f => φ (countOf c f i)) (render_reaction m c sol).left
      = entriesSum φ (fun f => φ (countOf c f i))
        (render_reaction m c sol).right := by
  have hnd := List.nodup_append.mp hnodup
  have hnd_ns : (speciesNames c).Nodup := hnd.1
  have htgt : c.target.material_formula ∉ speciesNames c := by
    intro hmem
    exact hnd.2.2 hmem (List.mem_singleton_self _)
  have hvlen : sol.length = (speciesNames c).length := by
    rw [hsol, hnames]
  have htslen : c.which_side.length = (speciesNames c).length := by
    rw [hws, hnames]
  have hterm_names : (rawTerms m (speciesNames c) c.which_side sol).map
      (fun t => t.2.1) = speciesNames c :=
    rawTerms_names m _ _ _ hvlen htslen
  -- the rendered reaction is the folded term list from the initial
  -- `{target: 1}` right-hand dict
  have hfold := applyTerms_fold m
    (rawTerms m (speciesNames c) c.which_side sol)
    ⟨[], [(c.target.material_formula, 1)]⟩
    (by rw [hterm_names]; exact hnd_ns)
    (by intro t _; simp [dictKeys])
    (by
      intro t ht
      simp only [dictKeys, List.map_cons, List.map_nil, List.mem_singleton]
      intro hEq
      apply htgt
      rw [← hEq, ← hterm_names]
      exact List.mem_map_of_mem _ ht)
  have hrender : render_reaction m c sol =
      ⟨termsFor m Side.left (rawTerms m (speciesNames c) c.which_side sol),
        (c.target.material_formula, 1) ::
          termsFor m Side.right
            (rawTerms m (speciesNames c) c.which_side sol)⟩ := by
    unfold render_reaction
    rw [hfold]
    simp
  rw [hrender]
  set cnt : String → ℚ := fun f => φ (countOf c f i) with hcnt
  have hsigned := signed_terms_sum m φ cnt (speciesNames c) sol
    c.which_side hzero
  have hcntF : ∀ p ∈ (speciesNames c).zip c.coefficient_columns,
      cnt p.1 = φ (p.2.getD i 0) := by
    intro p hp
    obtain ⟨f, col⟩ := p
    have hf : f ∈ speciesNames c := (List.of_mem_zip hp).1
    have hne : ¬(f = c.target.material_formula) := by
      intro hEq
      exact htgt (hEq ▸ hf)
    show cnt f = φ (col.getD i 0)
    simp only [hcnt]
    unfold countOf
    rw [if_neg hne]
    unfold speciesColumn
    rw [zip_lookup_nodup [] _ _ hnd_ns (f, col) hp]
  have hzipsum := sum_over_zip_eq φ cnt i (speciesNames c) sol
    c.which_side c.coefficient_columns hnames hsol hws hcntF
  have hmat := matVecCols_getD φ c.coefficient_columns sol
    c.all_elements.length i hcols
  rw [hsat] at hmat
  have htv : cnt c.target.material_formula = φ (c.target_vector.getD i 0) := by
    simp only [hcnt]
    unfold countOf
    rw [if_pos rfl]
  rw [entriesSum_cons]
  simp only [map_one, one_mul]
  rw [htv, hmat, ← hzipsum, ← hsigned]
  ring

theorem atomic_conservation_witness :
    ((∀ col ∈ baTiO3State.coefficient_columns,
        col.length = baTiO3State.all_elements.length) ∧
      matVecCols baTiO3State.coefficient_columns [1, 1, -1, 0]
        baTiO3State.all_elements.length = baTiO3State.target_vector) ∧
    entriesSum (RingHom.id ℚ)
        (fun f => (RingHom.id ℚ) (countOf baTiO3State f 1))
        (render_reaction qModel baTiO3State [1, 1, -1, 0]).left
      = entriesSum (RingHom.id ℚ)
        (fun f => (RingHom.id ℚ) (countOf baTiO3State f 1))
        (render_reaction qModel baTiO3State [1, 1, -1, 0]).right :=
  ⟨⟨by with_unfolding_all decide, by with_unfolding_all decide⟩,
    atomic_conservation qModel baTiO3State (RingHom.id ℚ) [1, 1, -1, 0] 1
      (by with_unfolding_all decide) (by with_unfolding_all decide)
      (by with_unfolding_all decide) (by with_unfolding_all decide)
      (by with_unfolding_all decide)
      (by
        have h : ∀ t ∈ rawTerms qModel (speciesNames baTiO3State)
            baTiO3State.which_side [1, 1, -1, 0],
            qModel.printA t.2.2 = "0" → t.2.2 = 0 := by
          with_unfolding_all decide
        intro t ht hz
        exact h t ht hz)
      (by with_unfolding_all decide)⟩

/-- **C1** (counterexample): conservation fails on a returned reaction.
A `{Ba: 50.0}` precursor, a `{Ti: 1.0}` precursor and a
`{Ba: 0.0125, Ti: 1.0}` target solve uniquely (no free parameters) to
the coefficients `(1/4000, 1)`, which satisfy the linear system
exactly; but `1/4000 = 0.00025` 3-decimal-prints as `"0"`, so
`_render_reaction` drops the barium precursor and `balance_recipe`
returns the unbalanced `1 Ti1 == 1 BaTi`: the signed sum of
`coefficient · Ba-count` over the returned terms is `0` on the left
and `1/80` on the right. -/
theorem atomic_conservation_counterexample :
    balance_recipe [rawBa50, rawTi1] [rawBaTiSmall] [] =
      Except.ok [("BaTi", ⟨[("Ti1", 1)], [("BaTi", 1)]⟩, none,
        "1 Ti1 == 1 BaTi")] ∧
    (gauss_jordan_solve smallCoeffState).map
      (fun p => (List.zipWith (fun a b => a - b) p.1 [mkRat 1 4000, 1],
        p.1.length, p.2))
      = some ([0, 0], 2, 0) ∧
    matVecCols smallCoeffState.coefficient_columns [mkRat 1 4000, 1]
      smallCoeffState.all_elements.length = smallCoeffState.target_vector ∧
    qModel.printA (mkRat 1 4000) = "0" ∧ ¬(mkRat 1 4000 = 0) ∧
    render_reaction qModel smallCoeffState [mkRat 1 4000, 1] =
      ⟨[("Ti1", 1)], [("BaTi", 1)]⟩ ∧
    entriesSum (RingHom.id ℚ)
        (fun f => (RingHom.id ℚ) (countOf smallCoeffState f 0))
        (render_reaction qModel smallCoeffState [mkRat 1 4000, 1]).left
      ≠ entriesSum (RingHom.id ℚ)
        (fun f => (RingHom.id ℚ) (countOf smallCoeffState f 0))
        (render_reaction qModel smallCoeffState [mkRat 1 4000, 1]).right := by
  refine ⟨?_, ?_, ?_, ?_, ?_, ?_, ?_⟩
  · with_unfolding_all decide
  · with_unfolding_all decide
  · with_unfolding_all decide
  · with_unfolding_all decide
  · with_unfolding_all decide
  · with_unfolding_all decide
  · have hTi : countOf smallCoeffState "Ti1" 0 = 0 := by
      with_unfolding_all decide
    have hBa : countOf smallCoeffState "BaTi" 0 = mkRat 1 80 := by
      with_unfolding_all decide
    have hleft : (render_reaction qModel smallCoeffState [mkRat 1 4000, 1]).left
        = [("Ti1", (1 : ℚ))] := by
      with_unfolding_all decide
    have hright : (render_reaction qModel smallCoeffState
        [mkRat 1 4000, 1]).right = [("BaTi", (1 : ℚ))] := by
      with_unfolding_all decide
    rw [hleft, hright]
    simp only [entriesSum, List.map_cons, List.map_nil, List.sum_cons,
      List.sum_nil, RingHom.id_apply, hTi, hBa]
    intro hcontra
    have : (0 : ℚ) = mkRat 1 80 := by
      simpa using hcontra
    have hne : ¬((0 : ℚ) = mkRat 1 80) := by
      with_unfolding_all decide
    exact hne this

/-- Characterization of the `_prepare_precursors` loop: it raises
`StupidRecipe` exactly when some first-occurrence precursor equals the
target's element map, and otherwise produces the screened candidate
list. -/
theorem prep_fold_char {A : Type} [DecidableEq A] (t : MatInfo A) :
    ∀ (ps : List (MatInfo A)) (st : PrepState A),
    (((dedupRel st.seen ps).any
        (fun p => dictEq p.all_elements_dict t.all_elements_dict) = true) →
      ps.foldlM (prepareStep t) st = Except.error PyErr.stupidRecipe) ∧
    (((dedupRel st.seen ps).any
        (fun p => dictEq p.all_elements_dict t.all_elements_dict) = false) →
      ∃ seen' decomp', ps.foldlM (prepareStep t) st =
        Except.ok ⟨seen', st.candidates ++
          (dedupRel st.seen ps).filter (keepsCandidate t), decomp'⟩)
  | [], st => by
    constructor
    · intro h
      simp [dedupRel] at h
    · intro _
      refine ⟨st.seen, st.decomp, ?_⟩
      simp only [dedupRel, List.filter_nil, List.append_nil]
      rfl
  | p :: ps, st => by
    rw [List.foldlM_cons]
    by_cases hseen : st.seen.contains p.material_formula = true
    · -- duplicate formula: skipped entirely
      have hstep : prepareStep t st p = pure st := by
        simp only [prepareStep, hseen, if_true]
      have hded : dedupRel st.seen (p :: ps) = dedupRel st.seen ps := by
        simp only [dedupRel]
        rw [if_pos hseen]
      rw [hstep, hded]
      have hpb : ((pure st : Except PyErr (PrepState A)) >>=
          fun st' => ps.foldlM (prepareStep t) st') =
          ps.foldlM (prepareStep t) st := by simp
      rw [hpb]
      exact prep_fold_char t ps st
    · have hseen' : st.seen.contains p.material_formula = false :=
        Bool.not_eq_true _ ▸ hseen
      have hded : dedupRel st.seen (p :: ps) =
          p :: dedupRel (st.seen ++ [p.material_formula]) ps := by
        simp only [dedupRel]
        rw [if_neg hseen]
      by_cases heq : dictEq p.all_elements_dict t.all_elements_dict = true
      · -- precursor equals target: the loop raises
        have hstep : prepareStep t st p = Except.error PyErr.stupidRecipe := by
          simp only [prepareStep, hseen', Bool.false_eq_true, if_false, heq,
            if_true]
          rfl
        rw [hstep]
        constructor
        · intro _
          rfl
        · intro h
          rw [hded] at h
          simp [heq] at h
      · have heq' : dictEq p.all_elements_dict t.all_elements_dict = false :=
          Bool.not_eq_true _ ▸ heq
        have hany : (dedupRel st.seen (p :: ps)).any
            (fun q => dictEq q.all_elements_dict t.all_elements_dict) =
            (dedupRel (st.seen ++ [p.material_formula]) ps).any
              (fun q => dictEq q.all_elements_dict t.all_elements_dict) := by
          rw [hded, List.any_cons, heq']
          simp
        by_cases hkeep : keepsCandidate t p = true
        · -- kept as a candidate
          have hsz : ¬(setSize p.all_elements = 0) := by
            unfold keepsCandidate at hkeep
            rw [Bool.and_eq_true] at hkeep
            intro h0
            rw [h0] at hkeep
            simp at hkeep
          have hsub : subsetB p.nv_elements t.nv_elements = true := by
            unfold keepsCandidate at hkeep
            rw [Bool.and_eq_true] at hkeep
            exact hkeep.2
          have hstep : prepareStep t st p = pure
              (⟨st.seen ++ [p.material_formula],
                st.candidates ++ [p],
                dictUpdate st.decomp p.decompose⟩ : PrepState A) := by
            simp only [prepareStep, hseen', Bool.false_eq_true, if_false, heq',
              hsz, hsub, Bool.not_true, ite_false, ite_true]
          rw [hstep]
          have hpb : ((pure (⟨st.seen ++ [p.material_formula],
              st.candidates ++ [p], dictUpdate st.decomp p.decompose⟩ :
                PrepState A) : Except PyErr (PrepState A)) >>=
              fun st' => ps.foldlM (prepareStep t) st') =
              ps.foldlM (prepareStep t)
                ⟨st.seen ++ [p.material_formula], st.candidates ++ [p],
                  dictUpdate st.decomp p.decompose⟩ := by simp
          rw [hpb]
          have ih := prep_fold_char t ps
            ⟨st.seen ++ [p.material_formula], st.candidates ++ [p],
              dictUpdate st.decomp p.decompose⟩
          constructor
          · intro h
            rw [hany] at h
            exact ih.1 h
          · intro h
            rw [hany] at h
            obtain ⟨seen', decomp', hok⟩ := ih.2 h
            refine ⟨seen', decomp', ?_⟩
            rw [hok, hded, List.filter_cons, if_pos hkeep]
            simp
        · -- screened out (empty element set or excessive elements)
          have hkeep' : keepsCandidate t p = false :=
            Bool.not_eq_true _ ▸ hkeep
          have hstep : prepareStep t st p = pure
              (⟨st.seen ++ [p.material_formula], st.candidates,
                st.decomp⟩ : PrepState A) := by
            by_cases hsz : setSize p.all_elements = 0
            · simp only [prepareStep, hseen', Bool.false_eq_true, if_false,
                heq', hsz, ite_true]
            · have hsub : subsetB p.nv_elements t.nv_elements = false := by
                rcases Bool.eq_false_or_eq_true
                  (subsetB p.nv_elements t.nv_elements) with h | h
                · exfalso
                  unfold keepsCandidate at hkeep'
                  rw [h] at hkeep'
                  simp [hsz] at hkeep'
                · exact h
              simp only [prepareStep, hseen', Bool.false_eq_true, if_false,
                heq', hsz, hsub, Bool.not_false, ite_true, ite_false]
          rw [hstep]
          have hpb : ((pure (⟨st.seen ++ [p.material_formula],
              st.candidates, st.decomp⟩ : PrepState A) :
                Except PyErr (PrepState A)) >>=
              fun st' => ps.foldlM (prepareStep t) st') =
              ps.foldlM (prepareStep t)
                ⟨st.seen ++ [p.material_formula], st.candidates,
                  st.decomp⟩ := by simp
          rw [hpb]
          have ih := prep_fold_char t ps
            ⟨st.seen ++ [p.material_formula], st.candidates, st.decomp⟩
          constructor
          · intro h
            rw [hany] at h
            exact ih.1 h
          · intro h
            rw [hany] at h
            obtain ⟨seen', decomp', hok⟩ := ih.2 h
            refine ⟨seen', decomp', ?_⟩
            rw [hok, hded, List.filter_cons, if_neg (by rw [hkeep']; simp)]
theorem except_bind_ok {α β : Type} (x : α) (f : α → Except PyErr β) :
    (Except.ok x >>= f) = f x := rfl

theorem except_bind_error {α β : Type} (e : PyErr) (f : α → Except PyErr β) :
    ((Except.error e : Except PyErr α) >>= f) = Except.error e := rfl

/-- The non-volatile coverage test
`len(target.nv_elements - precursors_nv_elements) > 0` is the negation
of the subset test. -/
theorem coverage_check_iff (tnv uni : List String) :
    0 < ((tnv.filter (fun e => !(uni.contains e))).dedup.length) ↔
      subsetB tnv uni = false := by
  rw [List.length_pos, Ne, List.dedup_eq_nil, List.filter_eq_nil_iff]
  unfold subsetB
  rw [List.all_eq_false]
  push_neg
  constructor
  · rintro ⟨a, ha, hp⟩
    exact ⟨a, ha, by simpa using hp⟩
  · rintro ⟨a, ha, hp⟩
    exact ⟨a, ha, by simpa using hp⟩

/-- `_prepare_precursors` raises `StupidRecipe` exactly for: precursor
equal to the target, empty candidate list, or non-volatile coverage
gap — and `StupidRecipe` is its only error. -/
theorem prepare_char {A : Type} [DecidableEq A] (ps : List (MatInfo A))
    (t : MatInfo A) :
    (prepare_precursors ps t = Except.error PyErr.stupidRecipe ↔
      ((dedupByFormula ps).any
        (fun p => dictEq p.all_elements_dict t.all_elements_dict) = true ∨
       candidatesOf ps t = [] ∨
       subsetB t.nv_elements (nvUnionOf (candidatesOf ps t)) = false)) ∧
    (∀ e, prepare_precursors ps t = Except.error e →
      e = PyErr.stupidRecipe) := by
  unfold prepare_precursors
  have hchar := prep_fold_char t ps ⟨[], [], []⟩
  cases hany : (dedupByFormula ps).any
      (fun p => dictEq p.all_elements_dict t.all_elements_dict) with
  | true =>
    have herr : ps.foldlM (prepareStep t) ⟨[], [], []⟩ =
        Except.error PyErr.stupidRecipe := hchar.1 hany
    rw [herr, except_bind_error]
    constructor
    · simp
    · intro e he
      cases he
      rfl
  | false =>
    obtain ⟨seen', decomp', hok⟩ := hchar.2 hany
    rw [hok, except_bind_ok]
    simp only [List.nil_append]
    have hcand : (dedupRel ([] : List String) ps).filter (keepsCandidate t) =
        candidatesOf ps t := rfl
    rw [hcand]
    by_cases hempt : (candidatesOf ps t).length = 0
    · rw [if_pos hempt]
      have hnil : candidatesOf ps t = [] := List.length_eq_zero.mp hempt
      constructor
      · constructor
        · intro _
          exact Or.inr (Or.inl hnil)
        · intro _
          rfl
      · intro e he
        cases he
        rfl
    · rw [if_neg hempt]
      have hnotnil : ¬(candidatesOf ps t = []) := by
        intro h
        exact hempt (by rw [h]; rfl)
      by_cases hcov : 0 < ((t.nv_elements.filter
          (fun e => !(((candidatesOf ps t).foldl
            (fun acc c => setUnion acc c.nv_elements) []).contains e))).dedup.length)
      · rw [if_pos hcov]
        have hsub : subsetB t.nv_elements (nvUnionOf (candidatesOf ps t)) = false :=
          (coverage_check_iff _ _).mp hcov
        constructor
        · constructor
          · intro _
            exact Or.inr (Or.inr hsub)
          · intro _
            rfl
        · intro e he
          cases he
          rfl
      · rw [if_neg hcov]
        have hsub : ¬(subsetB t.nv_elements (nvUnionOf (candidatesOf ps t)) = false) := by
          intro h
          exact hcov ((coverage_check_iff _ _).mpr h)
        constructor
        · constructor
          · intro h
            cases h
          · rintro (h | h | h)
            · simp [hany] at h
            · exact absurd h hnotnil
            · exact absurd h hsub
        · intro e he
          cases he

/-- **C4**: constructing a `ReactionCompleter` raises `StupidRecipe`
iff the target has fewer than `target_min_nv` non-volatile elements,
some non-duplicate precursor has the same full element map as the
target, the filtered candidate list is empty, or the surviving
candidates' non-volatile elements do not cover the target's. -/
theorem mkCompleter_stupidRecipe_iff {A : Type} [Zero A] [DecidableEq A]
    (ps : List (MatInfo A)) (t : MatInfo A) (minNv : ℕ) :
    mkCompleter ps t minNv = Except.error PyErr.stupidRecipe ↔
      (setSize t.nv_elements < minNv ∨
       (dedupByFormula ps).any
         (fun p => dictEq p.all_elements_dict t.all_elements_dict) = true ∨
       candidatesOf ps t = [] ∨
       subsetB t.nv_elements (nvUnionOf (candidatesOf ps t)) = false) := by
  unfold mkCompleter
  by_cases h1 : setSize t.nv_elements < minNv
  · have hinspect : inspect_target t minNv = Except.error PyErr.stupidRecipe := by
      unfold inspect_target
      rw [if_pos h1]
      rfl
    rw [hinspect, except_bind_error]
    simp [h1]
  · have hinspect : inspect_target t minNv = Except.ok () := by
      unfold inspect_target
      rw [if_neg h1]
      rfl
    rw [hinspect, except_bind_ok]
    have hchar := prepare_char ps t
    cases hprep : prepare_precursors ps t with
    | error e =>
      have he : e = PyErr.stupidRecipe := hchar.2 e hprep
      subst he
      rw [hprep] at hchar
      rw [except_bind_error]
      constructor
      · intro _
        exact Or.inr (hchar.1.mp rfl)
      · intro _
        rfl
    | ok triple =>
      obtain ⟨cands, decomp, exch⟩ := triple
      rw [hprep] at hchar
      rw [except_bind_ok]
      constructor
      · intro h
        cases h
      · rintro (h | h)
        · exact absurd h h1
        · have := hchar.1.mpr h
          cases this

theorem foldlM_error_subset {α β : Type} (f : β → α → Except PyErr β)
    (S : PyErr → Prop) (hstep : ∀ b a e, f b a = Except.error e → S e) :
    ∀ (l : List α) (b : β) (e : PyErr),
      l.foldlM f b = Except.error e → S e
  | [], b, e, h => by
    rw [List.foldlM_nil] at h
    cases h
  | a :: l, b, e, h => by
    rw [List.foldlM_cons] at h
    cases hf : f b a with
    | error e' =>
      rw [hf, except_bind_error] at h
      cases h
      exact hstep b a _ hf
    | ok b' =>
      rw [hf, except_bind_ok] at h
      exact foldlM_error_subset f S hstep l b' e h

theorem foldlM_ok {α β : Type} (f : β → α → Except PyErr β) :
    ∀ (l : List α), (∀ b, ∀ a ∈ l, ∃ b', f b a = Except.ok b') →
    ∀ b, ∃ b', l.foldlM f b = Except.ok b'
  | [], _, b => ⟨b, by rw [List.foldlM_nil]; rfl⟩
  | a :: l, h, b => by
    rw [List.foldlM_cons]
    obtain ⟨b', hb'⟩ := h b a (List.mem_cons_self _ _)
    rw [hb', except_bind_ok]
    exact foldlM_ok f l (fun b'' a' ha' => h b'' a' (List.mem_cons_of_mem _ ha')) b'

theorem mapM_error_subset {α β : Type} (f : α → Except PyErr β)
    (S : PyErr → Prop) (hstep : ∀ a e, f a = Except.error e → S e) :
    ∀ (l : List α) (e : PyErr), l.mapM f = Except.error e → S e
  | [], e, h => by
    rw [List.mapM_nil] at h
    cases h
  | a :: l, e, h => by
    rw [List.mapM_cons] at h
    cases hf : f a with
    | error e' =>
      rw [hf, except_bind_error] at h
      cases h
      exact hstep a _ hf
    | ok b =>
      rw [hf, except_bind_ok] at h
      cases hl : l.mapM f with
      | error e' =>
        rw [hl, except_bind_error] at h
        cases h
        exact mapM_error_subset f S hstep l _ hl
      | ok bs =>
        rw [hl, except_bind_ok] at h
        cases h

theorem mem_lookupD_exists {α : Type} {ev : List (String × List α)} {k : String}
    {x : α} (h : x ∈ lookupD ev k []) : ∃ pr ∈ ev, pr.1 = k ∧ x ∈ pr.2 := by
  unfold lookupD at h
  cases hf : ev.find? (fun p => p.1 = k) with
  | none =>
    rw [hf] at h
    cases h
  | some pr =>
    rw [hf] at h
    refine ⟨pr, List.mem_of_find?_eq_some hf, ?_, h⟩
    have := List.find?_some hf
    exact of_decide_eq_true this

theorem mem_foldl_setUnion (ls : List (List String)) :
    ∀ (init : List String) (x : String),
      x ∈ ls.foldl setUnion init ↔ x ∈ init ∨ ∃ l ∈ ls, x ∈ l := by
  induction ls with
  | nil => intro init x; simp
  | cons l ls ih =>
    intro init x
    rw [List.foldl_cons, ih, mem_setUnion]
    constructor
    · rintro (⟨h | h⟩ | ⟨l', hl', hx⟩)
      · exact Or.inl h
      · exact Or.inr ⟨l, List.mem_cons_self _ _, h⟩
      · exact Or.inr ⟨l', List.mem_cons_of_mem _ hl', hx⟩
    · rintro (h | ⟨l', hl', hx⟩)
      · exact Or.inl (Or.inl h)
      · rcases List.mem_cons.mp hl' with rfl | hl'
        · exact Or.inl (Or.inr hx)
        · exact Or.inr ⟨l', hl', hx⟩

theorem parseComponent_error {sub : List (String × String)} {fraction : ℚ}
    {elems : List (String × ℚ)} {acc : List (String × ℚ) × List (String × ℚ)}
    {e : PyErr} (h : parseComponent sub fraction elems acc = Except.error e) :
    e = PyErr.formulaError := by
  unfold parseComponent at h
  refine foldlM_error_subset _ (· = PyErr.formulaError) ?_ elems acc e h
  intro b a e' hstep
  simp only [] at hstep
  split_ifs at hstep with h1 h2
  · rw [except_throw_eq] at hstep
    cases hstep
    rfl
  · rw [except_pure_eq] at hstep
    cases hstep
  · rw [except_pure_eq] at hstep
    cases hstep

theorem parseMaterial_error {m : MaterialComp} {e : PyErr}
    (h : parseMaterial m = Except.error e) : e = PyErr.formulaError := by
  unfold parseMaterial at h
  refine foldlM_error_subset _ (· = PyErr.formulaError) ?_ m.composition ([], []) e h
  intro b a e' hstep
  exact parseComponent_error hstep

theorem except_bind_error_elim {α β : Type} {f : Except PyErr α}
    {k : α → Except PyErr β} {e : PyErr} (h : f >>= k = Except.error e) :
    f = Except.error e ∨ ∃ a, f = Except.ok a ∧ k a = Except.error e := by
  cases f with
  | error e' =>
    rw [except_bind_error] at h
    cases h
    exact Or.inl rfl
  | ok a =>
    rw [except_bind_ok] at h
    exact Or.inr ⟨a, rfl, h⟩

theorem legality_fold_error {subbed all_el : List String} {e : PyErr}
    (h : all_el.foldlM (fun _ el => do
        if !(subbed.contains el) && !(ELEMENTS.contains el) then
          throw PyErr.formulaError
        else pure ()) () = Except.error e) : e = PyErr.formulaError := by
  refine foldlM_error_subset _ (· = PyErr.formulaError) ?_ _ _ _ h
  intro b a e' hstep
  simp only [] at hstep
  split_ifs at hstep with h1
  · rw [except_throw_eq] at hstep
    cases hstep
    rfl
  · rw [except_pure_eq] at hstep
    cases hstep

theorem amount_parse_error {c : RawComponent} {e : PyErr}
    (h : (do match parsePy c.amount with
         | none => throw PyErr.formulaError
         | some a => do
           let elems ← c.elements.mapM (fun p => do
             match parsePy p.2 with
             | none => throw PyErr.formulaError
             | some q => pure (p.1, q))
           pure (Component.mk a elems) :
         Except PyErr Component) = Except.error e) :
    e = PyErr.formulaError := by
  cases hpa : parsePy c.amount with
  | none =>
    rw [hpa] at h
    simp only [except_throw_eq] at h
    cases h
    rfl
  | some a =>
    rw [hpa] at h
    simp only [] at h
    rcases except_bind_error_elim h with hme | ⟨elems, -, h⟩
    · refine mapM_error_subset _ (· = PyErr.formulaError) ?_ _ _ hme
      intro p e4 hstep
      simp only [] at hstep
      cases hpp : parsePy p.2 with
      | none =>
        rw [hpp] at hstep
        simp only [except_throw_eq] at hstep
        cases hstep
        rfl
      | some q =>
        rw [hpp] at hstep
        simp only [except_pure_eq] at hstep
        cases hstep
    · rw [except_pure_eq] at h
      cases h

theorem subcheck_fold_error {all_el : List String} {e : PyErr} :
    ∀ {sd : List (String × String)},
    (∀ p ∈ sd, all_el.contains p.1 = true ∧ ELEMENTS.contains p.2 = true) →
    sd.foldlM (fun _ p => do
        if !(all_el.contains p.1) then throw PyErr.valueError
        else if !(ELEMENTS.contains p.2) then throw PyErr.valueError
        else pure ()) () = Except.error e → False := by
  intro sd
  induction sd with
  | nil =>
    intro _ h
    rw [List.foldlM_nil] at h
    cases h
  | cons p rest ih =>
    intro hgood h
    rw [List.foldlM_cons] at h
    obtain ⟨h1, h2⟩ := hgood p (List.mem_cons_self _ _)
    rw [h1, h2] at h
    simp only [Bool.not_true, Bool.false_eq_true, if_false] at h
    rw [except_pure_eq, except_bind_ok] at h
    exact ih (fun q hq => hgood q (List.mem_cons_of_mem _ hq)) h

theorem materialInitQ_error_legal {ms mf : String} {comps : List RawComponent}
    {sub : Option (List (String × String))} {e : PyErr}
    (hgood : ∀ sd, sub = some sd → ∀ p ∈ sd,
      ((comps.foldl (fun acc c => setUnion acc (c.elements.map Prod.fst))
          []).contains p.1 = true) ∧ ELEMENTS.contains p.2 = true)
    (h : materialInitQ ms mf comps sub = Except.error e) :
    e = PyErr.formulaError := by
  simp only [materialInitQ] at h
  cases sub with
  | none =>
    simp only [] at h
    rw [except_pure_eq, except_bind_ok] at h
    rcases except_bind_error_elim h with hleg | ⟨u, -, h⟩
    · exact legality_fold_error hleg
    · rcases except_bind_error_elim h with hmap | ⟨comp, -, h⟩
      · refine mapM_error_subset _ (· = PyErr.formulaError) ?_ _ _ hmap
        intro c e'' hstep
        exact amount_parse_error hstep
      · rw [except_pure_eq] at h
        cases h
  | some sd =>
    simp only [] at h
    rcases except_bind_error_elim h with hbad | ⟨u1, -, h⟩
    · exact absurd hbad (fun hb => subcheck_fold_error (hgood sd rfl) hb)
    · rw [except_pure_eq, except_bind_ok] at h
      rcases except_bind_error_elim h with hleg | ⟨u, -, h⟩
      · exact legality_fold_error hleg
      · rcases except_bind_error_elim h with hmap | ⟨comp, -, h⟩
        · refine mapM_error_subset _ (· = PyErr.formulaError) ?_ _ _ hmap
          intro c e'' hstep
          exact amount_parse_error hstep
        · rw [except_pure_eq] at h
          cases h

theorem mkMaterialInfo_error_legal {ms mf : String} {comps : List RawComponent}
    {sub : Option (List (String × String))} {e : PyErr}
    (hgood : ∀ sd, sub = some sd → ∀ p ∈ sd,
      ((comps.foldl (fun acc c => setUnion acc (c.elements.map Prod.fst))
          []).contains p.1 = true) ∧ ELEMENTS.contains p.2 = true)
    (h : mkMaterialInfo ms mf comps sub = Except.error e) :
    e = PyErr.formulaError := by
  unfold mkMaterialInfo at h
  cases hmi : materialInitQ ms mf comps sub with
  | error e' =>
    rw [hmi, except_bind_error] at h
    cases h
    exact materialInitQ_error_legal hgood hmi
  | ok mc =>
    rw [hmi, except_bind_ok] at h
    cases hpm : parseMaterial mc with
    | error e' =>
      rw [hpm, except_bind_error] at h
      cases h
      exact parseMaterial_error hpm
    | ok nv =>
      rw [hpm, except_bind_ok] at h
      cases nv
      simp only [except_pure_eq] at h
      cases h

theorem mkCompleter_error_stupid {A : Type} [Zero A] [DecidableEq A]
    {ps : List (MatInfo A)} {t : MatInfo A} {n : ℕ} {e : PyErr}
    (h : mkCompleter ps t n = Except.error e) : e = PyErr.stupidRecipe := by
  unfold mkCompleter at h
  rcases except_bind_error_elim h with hins | ⟨u, -, h⟩
  · unfold inspect_target at hins
    split_ifs at hins
    · rw [except_throw_eq] at hins
      cases hins
      rfl
    · rw [except_pure_eq] at hins
      cases hins
  · rcases except_bind_error_elim h with hprep | ⟨tri, -, h⟩
    · unfold prepare_precursors at hprep
      rcases except_bind_error_elim hprep with hfold | ⟨st, -, hprep⟩
      · refine foldlM_error_subset _ (· = PyErr.stupidRecipe) ?_ _ _ _ hfold
        intro b a e' hstep
        unfold prepareStep at hstep
        split_ifs at hstep
        · rw [except_pure_eq] at hstep
          cases hstep
        · rw [except_throw_eq] at hstep
          cases hstep
          rfl
        · rw [except_pure_eq] at hstep
          cases hstep
        · rw [except_pure_eq] at hstep
          cases hstep
        · rw [except_pure_eq] at hstep
          cases hstep
      · simp only [] at hprep
        split_ifs at hprep
        · rw [except_throw_eq] at hprep
          cases hprep
          rfl
        · rw [except_throw_eq] at hprep
          cases hprep
          rfl
        · rw [except_pure_eq] at hprep
          cases hprep
    · obtain ⟨a, b, c⟩ := tri
      simp only [except_pure_eq] at h
      cases h

theorem compute_reactions_error_mem {m : AmountModel ℚ} {c : CompleterState ℚ}
    {e : PyErr} (h : compute_reactions m c = Except.error e) :
    e = PyErr.tooFewPrecursors ∨ e = PyErr.tooManyPrecursors := by
  unfold compute_reactions at h
  cases hg : gauss_jordan_solve c with
  | none =>
    rw [hg] at h
    rw [except_throw_eq] at h
    cases h
    exact Or.inl rfl
  | some p =>
    obtain ⟨sol, k⟩ := p
    rw [hg] at h
    simp only [] at h
    split_ifs at h
    · rw [except_throw_eq] at h
      cases h
      exact Or.inr rfl
    · rw [except_pure_eq] at h
      cases h

theorem except_bind_ok_total {α β : Type} {x : Except PyErr α}
    {k : α → Except PyErr β} (hx : ∃ a, x = Except.ok a)
    (hk : ∀ a, ∃ b, k a = Except.ok b) :
    ∃ b, x >>= k = Except.ok b := by
  obtain ⟨a, ha⟩ := hx
  obtain ⟨b, hb⟩ := hk a
  exact ⟨b, by rw [ha, except_bind_ok, hb]⟩

theorem render_reaction_string_total {ps : List RawMaterial}
    {target : RawMaterial} {r : Balanced ℚ}
    {es : Option (List (String × String))} {adds : List String}
    (hadds : target.additives = some adds) :
    ∃ s, render_reaction_string ps target r es = Except.ok s := by
  simp only [render_reaction_string, hadds]
  by_cases hemp : adds.isEmpty
  · rw [if_pos hemp]
    exact ⟨_, rfl⟩
  · rw [if_neg hemp]
    refine except_bind_ok_total (foldlM_ok _ ps ?_ []) (fun aps => ⟨_, rfl⟩)
    intro b a ha
    cases hmk : mkMaterialInfo a.material_string a.material_formula
        a.composition none with
    | ok mi =>
      simp only []
      split_ifs
      · exact ⟨_, rfl⟩
      · exact ⟨_, rfl⟩
    | error e =>
      have he : e = PyErr.formulaError :=
        mkMaterialInfo_error_legal (fun sd hsd => by cases hsd) hmk
      subst he
      exact ⟨_, rfl⟩

theorem screen_good_precursors_total (precursors : List RawMaterial) :
    ∃ ps, screen_good_precursors precursors = Except.ok ps := by
  unfold screen_good_precursors
  refine foldlM_ok _ precursors (fun b a ha => ?_) []
  cases hmk : material_dict_to_info a with
  | ok mi => exact ⟨_, rfl⟩
  | error e =>
    have he : e = PyErr.formulaError := by
      unfold material_dict_to_info at hmk
      exact mkMaterialInfo_error_legal (fun sd hsd => by cases hsd) hmk
    subst he
    exact ⟨_, rfl⟩

theorem try_balance_error_cannot {pb : List (MatInfo ℚ)} {target : RawMaterial}
    {sub : Option (List (String × String))} {allp : List RawMaterial}
    {ti : MatInfo ℚ} {adds : List String} {e : PyErr}
    (hti : material_dict_to_info target sub = Except.ok ti)
    (hadds : target.additives = some adds)
    (h : try_balance pb target sub allp = Except.error e) :
    isCannotBalance e = true := by
  unfold try_balance at h
  rw [hti, except_bind_ok] at h
  rcases except_bind_error_elim h with hmk | ⟨c, -, h⟩
  · rw [mkCompleter_error_stupid hmk]
    rfl
  · rcases except_bind_error_elim h with hcr | ⟨sol, -, h⟩
    · rcases compute_reactions_error_mem hcr with he | he <;> rw [he] <;> rfl
    · rcases except_bind_error_elim h with hrd | ⟨s, -, h⟩
      · obtain ⟨s0, hs0⟩ :=
          @render_reaction_string_total allp target sol sub adds hadds
        rw [hs0] at hrd
        cases hrd
      · rw [except_pure_eq] at h
        cases h

theorem trySubsets_total {target : RawMaterial}
    {sub : Option (List (String × String))} {precursors : List RawMaterial}
    {ti : MatInfo ℚ} {adds : List String}
    (hti : material_dict_to_info target sub = Except.ok ti)
    (hadds : target.additives = some adds) :
    ∀ cands, ∃ r, trySubsets cands target sub precursors = Except.ok r := by
  intro cands
  induction cands with
  | nil => exact ⟨none, rfl⟩
  | cons c rest ih =>
    unfold trySubsets
    cases htb : try_balance c target sub precursors with
    | ok sol => exact ⟨_, rfl⟩
    | error e =>
      simp only []
      rw [if_pos (try_balance_error_cannot hti hadds htb)]
      exact ih

theorem balanceVariant_total {pb : List (MatInfo ℚ)} {sentences : List String}
    {precursors : List RawMaterial} {target : RawMaterial}
    {sub : Option (List (String × String))} {sols : List ReactionTuple}
    {adds : List String}
    (hclass : ∀ e, material_dict_to_info target sub = Except.error e →
      e = PyErr.formulaError)
    (hadds : target.additives = some adds) :
    ∃ out, balanceVariant pb sentences precursors target sub sols =
      Except.ok out := by
  unfold balanceVariant
  cases hmd : material_dict_to_info target sub with
  | error e =>
    have he := hclass e hmd
    subst he
    exact ⟨_, rfl⟩
  | ok ti =>
    simp only []
    cases htb : try_balance pb target sub precursors with
    | ok sol => exact ⟨_, rfl⟩
    | error e =>
      have hC := try_balance_error_cannot hmd hadds htb
      cases e with
      | stupidRecipe => exact ⟨sols, rfl⟩
      | tooFewPrecursors =>
        simp only []
        cases htb2 : try_balance (pb.filter (fun x => !x.is_hco)) target sub
            precursors with
        | ok sol => exact ⟨_, rfl⟩
        | error e2 =>
          simp only []
          rw [if_pos (try_balance_error_cannot hmd hadds htb2)]
          exact ⟨sols, rfl⟩
      | tooManyPrecursors =>
        simp only []
        by_cases hpe : (find_precursors_in_same_sentence pb sentences).isEmpty
        · rw [if_pos hpe]
          exact ⟨sols, rfl⟩
        · rw [if_neg hpe]
          obtain ⟨r, hr⟩ := trySubsets_total hmd hadds
            (find_precursors_in_same_sentence pb sentences)
          rw [hr, except_bind_ok]
          cases r with
          | some sol => exact ⟨_, rfl⟩
          | none => exact ⟨sols, rfl⟩
      | formulaError => cases hC
      | expressionPrintError => cases hC
      | keyError => cases hC
      | typeError => cases hC
      | valueError => cases hC

theorem substStep_char {acc : List (RawMaterial × Option (List (String × String)))}
    {target : RawMaterial}
    (hev : target.elements_vars.isSome = true)
    (hcomp : target.composition ≠ [])
    (h4 : ∀ pr ∈ target.elements_vars.getD [], ∀ v ∈ pr.2,
      ELEMENTS.contains v = true) :
    ∃ out, substStep acc target = Except.ok out ∧
      ∀ q ∈ out, q ∈ acc ∨ (q.1 = target ∧ legalSubstitution target q.2) := by
  obtain ⟨ev, hev'⟩ := Option.isSome_iff_exists.mp hev
  unfold substStep
  rw [hev']
  cases hc : target.composition with
  | nil => exact absurd hc hcomp
  | cons c0 cs =>
    simp only [List.map_cons, except_pure_eq, except_bind_ok]
    split_ifs with hif
    · refine ⟨_, rfl, ?_⟩
      intro q hq
      rcases List.mem_append.mp hq with hq | hq
      · exact Or.inl hq
      · obtain ⟨subv, hsubv, hq⟩ := List.mem_flatMap.mp hq
        obtain ⟨subs, hsubs, rfl⟩ := List.mem_map.mp hq
        refine Or.inr ⟨rfl, Or.inr ⟨subv, subs, rfl, ?_, ?_⟩⟩
        · have hte : ((cs.map (fun c => c.elements.map Prod.fst)).foldl setUnion
              (c0.elements.map Prod.fst)).contains subv = true :=
            (List.mem_filter.mp hsubv).2
          rw [contains_iff] at hte
          rw [contains_iff]
          have hmem := (mem_foldl_setUnion _ _ _).mp hte
          have : subv ∈ (target.composition.map
              (fun c => c.elements.map Prod.fst)).foldl setUnion [] := by
            rw [mem_foldl_setUnion, hc, List.map_cons]
            rcases hmem with h | ⟨l, hl, hx⟩
            · exact Or.inr ⟨_, List.mem_cons_self _ _, h⟩
            · exact Or.inr ⟨l, List.mem_cons_of_mem _ hl, hx⟩
          rw [List.foldl_map] at this
          exact this
        · obtain ⟨pr, hpr, hprk, hsubs'⟩ := mem_lookupD_exists hsubs
          have hgetD : target.elements_vars.getD [] = ev := by
            rw [hev']
            rfl
          exact h4 pr (hgetD ▸ hpr) subs hsubs'
    · refine ⟨_, rfl, ?_⟩
      intro q hq
      rcases List.mem_append.mp hq with hq | hq
      · exact Or.inl hq
      · rcases List.mem_singleton.mp hq with rfl
        exact Or.inr ⟨rfl, Or.inl rfl⟩

theorem subst_fold_char :
    ∀ (ts : List RawMaterial),
    (∀ t ∈ ts, t.elements_vars.isSome = true) →
    (∀ t ∈ ts, t.composition ≠ []) →
    (∀ t ∈ ts, ∀ pr ∈ t.elements_vars.getD [], ∀ v ∈ pr.2,
      ELEMENTS.contains v = true) →
    ∀ acc, ∃ pairs, ts.foldlM substStep acc = Except.ok pairs ∧
      ∀ q ∈ pairs, q ∈ acc ∨ (q.1 ∈ ts ∧ legalSubstitution q.1 q.2) := by
  intro ts
  induction ts with
  | nil =>
    intro _ _ _ acc
    refine ⟨acc, by rw [List.foldlM_nil]; rfl, ?_⟩
    intro q hq
    exact Or.inl hq
  | cons t rest ih =>
    intro h1 h2 h4 acc
    rw [List.foldlM_cons]
    obtain ⟨out, hout, hmem⟩ := @substStep_char acc t
      (h1 t (List.mem_cons_self _ _)) (h2 t (List.mem_cons_self _ _))
      (h4 t (List.mem_cons_self _ _))
    rw [hout, except_bind_ok]
    obtain ⟨pairs, hpairs, hmem'⟩ := ih
      (fun t' ht' => h1 t' (List.mem_cons_of_mem _ ht'))
      (fun t' ht' => h2 t' (List.mem_cons_of_mem _ ht'))
      (fun t' ht' => h4 t' (List.mem_cons_of_mem _ ht')) out
    refine ⟨pairs, hpairs, ?_⟩
    intro q hq
    rcases hmem' q hq with hq' | ⟨hqm, hql⟩
    · rcases hmem q hq' with hq'' | ⟨hqt, hql⟩
      · exact Or.inl hq''
      · exact Or.inr ⟨hqt ▸ List.mem_cons_self _ _, hqt ▸ hql⟩
    · exact Or.inr ⟨List.mem_cons_of_mem _ hqm, hql⟩

theorem substitute_element_vars_char {targets : List RawMaterial}
    (h1 : ∀ t ∈ targets, t.elements_vars.isSome = true)
    (h2 : ∀ t ∈ targets, t.composition ≠ [])
    (h4 : ∀ t ∈ targets, ∀ pr ∈ t.elements_vars.getD [], ∀ v ∈ pr.2,
      ELEMENTS.contains v = true) :
    ∃ pairs, substitute_element_vars targets = Except.ok pairs ∧
      ∀ q ∈ pairs, q.1 ∈ targets ∧ legalSubstitution q.1 q.2 := by
  obtain ⟨pairs, hpairs, hmem⟩ := subst_fold_char targets h1 h2 h4 []
  refine ⟨pairs, hpairs, ?_⟩
  intro q hq
  rcases hmem q hq with hq' | hq'
  · cases hq'
  · exact hq'

/-- **C10** (amended): the target keys are not optional, and key
presence alone is not enough either.  A missing `elements_vars` raises
`KeyError` (see the counterexample).  With every key present,
integer-literal amounts compute in exact `Rational`s: `Ba2`, `Ti2`,
`Ti4` towards `BaTi4` is first `TooManyPrecursors`, then the sentence
subset `[Ba2, Ti2]` solves to the coefficient `1/2`, and the
renderer's `ExpressionPrintException` escapes the subset loop, whose
handler catches only `(CannotBalance, TokenError)` — so
`balance_recipe` raises despite all keys being present (first
conjunct, over the exact-regime pipeline).  When additionally every
amount is a float literal — sympy then computes in `Float`s, printed
by 3-decimal rounding, never raising — `balance_recipe` with the
`elements_vars` key (legal element values), a nonempty composition and
the `additives` key on every target returns a result list and raises
nothing (second conjunct). -/
theorem balance_recipe_keys_present_amended :
    (balance_recipe_exact [rawBa2, rawTi2, rawTi4] [rawBaTi4]
        ["Ba2 and Ti2 were mixed"] =
      Except.error PyErr.expressionPrintError) ∧
    ∀ (precursors targets : List RawMaterial) (sentences : List String),
      precursors.all allFloatAmounts = true →
      targets.all allFloatAmounts = true →
      targets.all (fun t => t.elements_vars.isSome) = true →
      targets.all (fun t => !t.composition.isEmpty) = true →
      targets.all (fun t => (t.elements_vars.getD []).all
        (fun pr => pr.2.all (fun v => ELEMENTS.contains v))) = true →
      targets.all (fun t => t.additives.isSome) = true →
      ∃ res, balance_recipe precursors targets sentences = Except.ok res := by
  constructor
  · with_unfolding_all decide
  · intro precursors targets sentences h6 h7 h1 h2 h4 h5
    have h1' : ∀ t ∈ targets, t.elements_vars.isSome = true :=
      fun t ht => List.all_eq_true.mp h1 t ht
    have h2' : ∀ t ∈ targets, t.composition ≠ [] := by
      intro t ht hc
      have := List.all_eq_true.mp h2 t ht
      rw [hc] at this
      cases this
    have h4' : ∀ t ∈ targets, ∀ pr ∈ t.elements_vars.getD [], ∀ v ∈ pr.2,
        ELEMENTS.contains v = true := by
      intro t ht pr hpr v hv
      have ha := List.all_eq_true.mp h4 t ht
      have hb := List.all_eq_true.mp ha pr hpr
      exact List.all_eq_true.mp hb v hv
    have h5' : ∀ t ∈ targets, t.additives.isSome = true :=
      fun t ht => List.all_eq_true.mp h5 t ht
    unfold balance_recipe
    obtain ⟨pairs, hpairs, hgood⟩ := substitute_element_vars_char h1' h2' h4'
    rw [hpairs, except_bind_ok]
    obtain ⟨pb, hpb⟩ := screen_good_precursors_total precursors
    rw [hpb, except_bind_ok]
    refine foldlM_ok _ pairs ?_ []
    intro sols q hq
    obtain ⟨hqt, hlegal⟩ := hgood q hq
    obtain ⟨adds, hadds⟩ := Option.isSome_iff_exists.mp (h5' q.1 hqt)
    refine balanceVariant_total ?_ hadds
    intro e he
    unfold material_dict_to_info at he
    refine mkMaterialInfo_error_legal ?_ he
    intro sd hsd p hp
    rcases hlegal with hnone | ⟨k, v, hsome, hck, hcv⟩
    · rw [hnone] at hsd
      cases hsd
    · rw [hsome] at hsd
      injection hsd with hsd'
      subst hsd'
      rcases List.mem_singleton.mp hp with rfl
      exact ⟨hck, hcv⟩

theorem balance_recipe_keys_present_amended_witness :
    (balance_recipe_exact [rawBa2, rawTi2, rawTi4] [rawBaTi4]
        ["Ba2 and Ti2 were mixed"] =
      Except.error PyErr.expressionPrintError) ∧
    ∃ res, balance_recipe [rawBaCO3, rawTiO2] [rawBaTiO3] [] =
      Except.ok res :=
  ⟨balance_recipe_keys_present_amended.1,
    balance_recipe_keys_present_amended.2 [rawBaCO3, rawTiO2] [rawBaTiO3] []
      (by decide) (by decide) (by decide) (by decide) (by decide) (by decide)⟩

end ReactionCompleter
